import Mathlib

/-!
Verification development for the WhatsApp chat analyzer backend (Go).

This file shallowly embeds the parts of the source that the checked claims
are about:

* the timestamp machinery (`analysis_utils.go`): Go `time.Time` values are
  modelled as `Int` seconds since the Unix epoch (UTC); `Format("2006-01-02")`,
  `Format("2006-01")`, `Hour()` and `Weekday()` are derived with the standard
  civil-calendar algorithms; `time.Parse` is implemented for the 24 layout
  strings the source registers;
* the transcript parser `preprocessMessages` together with
  `sniffTimestampLayouts`, `cleanTextRemoveStopwords` and the system/media
  filter.  The timestamp header regular expression is implemented as a
  hand-written matcher following the pattern literally;
* the statistics engine `calculateChatStatistics` (single pass over the
  parsed records) with its helpers `calculatePercentile`,
  `calculateDynamicConvoBreak`, `getMonthlyActivity`,
  `calcWeekdayWeekendAvg`, `formatInteractionMatrix`, `countTopN`,
  `roundFloat`;
* the orchestrator `AnalyzeChat` (second revision in the source, the one
  that threads the raw line count) and the status decision of
  `analyzeHandler`.

Modelling conventions:

* Go `float64` is modelled as `Rat`; the float operations performed by the
  source on the values the theorems below evaluate are exact in binary64,
  so the rational model agrees with the executed code there.
* Go maps are modelled as insertion-ordered association lists.  Iteration
  order of a Go map range loop is unspecified (the runtime randomizes it),
  so a loop whose result depends on the visit order — the peak-hour scan —
  is parameterized by the order, and theorems quantify over all
  permutations of the map entries.
* Side data files (stop-word list, system-message pattern list) are not
  part of the repository; functions reading them take the loaded contents
  as explicit parameters.
* Goroutines: `AnalyzeChat` forks the statistics computation and the AI
  branch and joins both before composing the result; the embedding runs
  the same data flow sequentially and takes the AI outcome as a parameter.
-/

/-! ### Association lists (Go maps, insertion-ordered) -/

/-- Go map read with zero value: `m[k]` for `map[string]int`. -/
def lookupD (m : List (String × Nat)) (k : String) : Nat :=
  match m with
  | [] => 0
  | (k1, v) :: rest => if k1 = k then v else lookupD rest k

/-- Go `m[k]++`: update in place when present, append when absent. -/
def bump (m : List (String × Nat)) (k : String) : List (String × Nat) :=
  match m with
  | [] => [(k, 1)]
  | (k1, v) :: rest => if k1 = k then (k1, v + 1) :: rest else (k1, v) :: bump rest k

/-- Keys of an association list. -/
def alKeys (m : List (String × Nat)) : List String := m.map (·.1)

/-- Nat-keyed Go map read (`map[int]int`). -/
def lookupDN (m : List (Nat × Nat)) (k : Nat) : Nat :=
  match m with
  | [] => 0
  | (k1, v) :: rest => if k1 = k then v else lookupDN rest k

/-- Nat-keyed Go `m[k]++`. -/
def bumpN (m : List (Nat × Nat)) (k : Nat) : List (Nat × Nat) :=
  match m with
  | [] => [(k, 1)]
  | (k1, v) :: rest => if k1 = k then (k1, v + 1) :: rest else (k1, v) :: bumpN rest k

/-- Nested Go map read: `m[a][b]` for `map[string]map[string]int`. -/
def lookup2 (m : List (String × List (String × Nat))) (a b : String) : Nat :=
  match m with
  | [] => 0
  | (k1, inner) :: rest => if k1 = a then lookupD inner b else lookup2 rest a b

/-- Nested Go `m[a][b]++` (creating the inner map when absent). -/
def bump2 (m : List (String × List (String × Nat))) (a b : String) :
    List (String × List (String × Nat)) :=
  match m with
  | [] => [(a, [(b, 1)])]
  | (k1, inner) :: rest =>
      if k1 = a then (k1, bump inner b) :: rest else (k1, inner) :: bump2 rest a b

/-- Membership-preserving set insertion used for `allMonths[monthStr] = struct{}{}`. -/
def insertNew (s : List String) (x : String) : List String :=
  if x ∈ s then s else s ++ [x]

/-- Go `strings.TrimSpace` (structural, over the character list). -/
def goTrimSpace (s : String) : String :=
  ⟨((s.data.dropWhile Char.isWhitespace).reverse.dropWhile Char.isWhitespace).reverse⟩

/-- Lower-casing, character by character (ASCII; the inputs under
verification are ASCII apart from the two marks the parser strips). -/
def strToLower (s : String) : String := ⟨s.data.map Char.toLower⟩

/-- Upper-casing, character by character. -/
def strToUpper (s : String) : String := ⟨s.data.map Char.toUpper⟩

/-- Go `strings.ReplaceAll` for a one-character pattern and replacement. -/
def replaceChar (a b : Char) (s : String) : String :=
  ⟨s.data.map fun c => if c = a then b else c⟩

/-- Split on a separator character (the source's `strings.Split` /
`Scanner` uses have one-character separators). -/
def splitOnCharAux (sep : Char) : List Char → List Char → List String
  | acc, [] => [⟨acc.reverse⟩]
  | acc, c :: rest =>
      if c = sep then (⟨acc.reverse⟩ : String) :: splitOnCharAux sep [] rest
      else splitOnCharAux sep (c :: acc) rest

/-- Split a string at every occurrence of `sep`. -/
def splitOnChar (sep : Char) (s : String) : List String :=
  splitOnCharAux sep [] s.data

/-- Split at every character satisfying `p` (Go `strings.FieldsFunc`
modulo empty fields, which the callers filter). -/
def splitPredAux (p : Char → Bool) : List Char → List Char → List String
  | acc, [] => [⟨acc.reverse⟩]
  | acc, c :: rest =>
      if p c then (⟨acc.reverse⟩ : String) :: splitPredAux p [] rest
      else splitPredAux p (c :: acc) rest

/-- Digit run to a number (the runs are pre-checked to be all digits). -/
def digitsToNat (cs : List Char) : Nat :=
  cs.foldl (fun n c => n * 10 + (c.toNat - 48)) 0

/-- Join with a separator (Go `strings.Join`). -/
def strJoin (sep : String) : List String → String
  | [] => ""
  | [x] => x
  | x :: rest => x ++ sep ++ strJoin sep rest


/-! ### Go time model

`time.Time` is an `Int` of seconds since the Unix epoch; all timestamps
the source builds are in UTC (no zone information in the layouts).  The
civil-calendar conversions below are the standard era-based algorithms.
-/

/-- Days-since-epoch to civil date `(year, month, day)`. -/
def civilFromDays (z : Int) : Int × Nat × Nat :=
  let zs := z + 719468
  let era := zs.ediv 146097
  let doe := (zs - era * 146097).toNat
  let yoe := (doe - doe / 1460 + doe / 36524 - doe / 146096) / 365
  let y := (yoe : Int) + era * 400
  let doy := doe - (365 * yoe + yoe / 4 - yoe / 100)
  let mp := (5 * doy + 2) / 153
  let d := doy - (153 * mp + 2) / 5 + 1
  let m := if mp < 10 then mp + 3 else mp - 9
  (if m ≤ 2 then y + 1 else y, m, d)

/-- Civil date to days since the Unix epoch. -/
def daysFromCivil (y : Int) (m d : Nat) : Int :=
  let ya := if m ≤ 2 then y - 1 else y
  let era := ya.ediv 400
  let yoe := (ya - era * 400).toNat
  let mp := if 2 < m then m - 3 else m + 9
  let doy := (153 * mp + 2) / 5 + d - 1
  let doe := yoe * 365 + yoe / 4 - yoe / 100 + doy
  era * 146097 + (doe : Int) - 719468

/-- Two-digit zero padding used by Go `Format` verbs `01` and `02`. -/
def pad2 (n : Nat) : String :=
  if n < 10 then "0" ++ toString n else toString n

/-- Go `t.Format("2006-01-02")` for a UTC instant. -/
def goFormatDate (t : Int) : String :=
  let c := civilFromDays (t.ediv 86400)
  toString c.1 ++ "-" ++ pad2 c.2.1 ++ "-" ++ pad2 c.2.2

/-- Go `t.Format("2006-01")` for a UTC instant. -/
def goFormatMonth (t : Int) : String :=
  let c := civilFromDays (t.ediv 86400)
  toString c.1 ++ "-" ++ pad2 c.2.1

/-- Go `t.Hour()` for a UTC instant. -/
def goHour (t : Int) : Nat :=
  (t.emod 86400).toNat / 3600

/-- Go `int(t.Weekday())` for a UTC instant (0 = Sunday; the epoch day was a Thursday). -/
def goWeekday (t : Int) : Nat :=
  ((t.ediv 86400 + 4).emod 7).toNat

/-- Go leap-year test (`isLeap` in the time package). -/
def goIsLeap (y : Int) : Bool :=
  y.emod 4 = 0 && (y.emod 100 ≠ 0 || y.emod 400 = 0)

/-- Days in a month, as validated by Go `time.Parse`. -/
def goDaysIn (y : Int) (m : Nat) : Nat :=
  if m = 2 then (if goIsLeap y then 29 else 28)
  else if m = 4 ∨ m = 6 ∨ m = 9 ∨ m = 11 then 30
  else 31

/-! ### Go `time.Parse` for the registered layouts

The source registers 24 layout strings (`timestampParseLayouts` in
`analysis_utils.go`), all of the shape `D/M/Y H:MM[:SS][ PM]` with the
verbs `1`/`01` (month), `2`/`02` (day), `06`/`2006` (year), `15` (24-hour
hour), `3` (12-hour hour), `04` (minute), `05` (second), `PM` (upper-case
meridiem).  `goTimeParse` interprets exactly these verbs, with Go's width
rules (`1`,`2`,`15`,`3` take one or two digits; `01`,`02`,`04`,`05`,`06`
take exactly two; `2006` takes exactly four), Go's two-digit-year pivot
(69–99 → 19xx, 00–68 → 20xx), Go's range validation (month 1–12, day up
to the month length, 24-hour hour ≤ 23, 12-hour hour ≤ 12, minute and
second ≤ 59) and Go's requirement that the value be consumed entirely.
-/

/-- Digit-run token against a layout verb width: `flex` verbs (`1`, `2`,
`3`, `15`) accept one or two digits, the zero-padded verbs exactly two,
`2006` exactly four. -/
def parseDigits (comp : String) (lo hi : Nat) : Option Nat :=
  if comp.length < lo ∨ hi < comp.length ∨ ¬ comp.data.all Char.isDigit then none
  else some (digitsToNat comp.data)

/-- Interpretation of one date component under a layout verb; returns the
field tagged as month, day or year. -/
inductive DateField where
  | month (m : Nat)
  | day (d : Nat)
  | year (y : Int)
deriving DecidableEq

/-- Parse one `/`-separated date component under the matching layout verb. -/
def parseDateToken (tok comp : String) : Option DateField :=
  if tok = "1" then (parseDigits comp 1 2).map .month
  else if tok = "01" then (parseDigits comp 2 2).map .month
  else if tok = "2" then (parseDigits comp 1 2).map .day
  else if tok = "02" then (parseDigits comp 2 2).map .day
  else if tok = "06" then
    (parseDigits comp 2 2).map fun v => .year (if 69 ≤ v then 1900 + v else 2000 + v)
  else if tok = "2006" then (parseDigits comp 4 4).map fun v => .year v
  else none

/-- Result of parsing the three date components of a layout. -/
def parseDateParts (toks comps : List String) : Option (Int × Nat × Nat) :=
  match toks, comps with
  | [t1, t2, t3], [c1, c2, c3] => do
      let f1 ← parseDateToken t1 c1
      let f2 ← parseDateToken t2 c2
      let f3 ← parseDateToken t3 c3
      match f3 with
      | .year y =>
          match f1, f2 with
          | .month m, .day d => some (y, m, d)
          | .day d, .month m => some (y, m, d)
          | _, _ => none
      | _ => none
  | _, _ => none

/-- Parse the hour and minute components under the layout verbs; returns
`(hour, minute, is12Hour)`. -/
def parseHM (th ch tm cm : String) : Option (Nat × Nat × Bool) := do
  let twelve ← if th = "3" then some true else if th = "15" then some false else none
  let h ← parseDigits ch 1 2
  let m ← if tm = "04" then parseDigits cm 2 2 else none
  if (twelve ∧ h ≤ 12) ∨ (¬ twelve ∧ h ≤ 23) then
    if m ≤ 59 then some (h, m, twelve) else none
  else none

/-- Parse the `:`-separated time components (hour/minute and optional
second) of a layout; returns `(hour, minute, second, is12Hour)`. -/
def parseTimeParts (toks comps : List String) : Option (Nat × Nat × Nat × Bool) :=
  match toks, comps with
  | [th, tm], [ch, cm] => (parseHM th ch tm cm).map fun r => (r.1, r.2.1, 0, r.2.2)
  | [th, tm, ts], [ch, cm, cs] => do
      let r ← parseHM th ch tm cm
      let s ← if ts = "05" then parseDigits cs 2 2 else none
      if s ≤ 59 then some (r.1, r.2.1, s, r.2.2) else none
  | _, _ => none

/-- Go `time.Parse(layout, value)` for the 24 registered layouts, giving
seconds since the Unix epoch (UTC).  `none` models a parse error. -/
def goTimeParse (layout value : String) : Option Int := do
  let ltoks := splitOnChar ' ' layout
  let vtoks := splitOnChar ' ' value
  let (ldate, ltime, lampm) ←
    match ltoks with
    | [d, t] => some (d, t, false)
    | [d, t, p] => if p = "PM" then some (d, t, true) else none
    | _ => none
  let (vdate, vtime, vampm) ←
    match vtoks with
    | [d, t] => if lampm then none else some (d, t, none)
    | [d, t, p] => if lampm then some (d, t, some p) else none
    | _ => none
  let (y, mo, d) ← parseDateParts (splitOnChar '/' ldate) (splitOnChar '/' vdate)
  let (h, mi, s, twelve) ← parseTimeParts (splitOnChar ':' ltime) (splitOnChar ':' vtime)
  if ¬ (1 ≤ mo ∧ mo ≤ 12) then none
  else if ¬ (1 ≤ d ∧ d ≤ goDaysIn y mo) then none
  else
    let h ←
      if twelve then
        match vampm with
        | some "PM" => some (if h < 12 then h + 12 else h)
        | some "AM" => some (if h = 12 then 0 else h)
        | _ => none
      else if vampm = none then some h else none
    some (daysFromCivil y mo d * 86400 + (h * 3600 + mi * 60 + s : Nat))

/-! ### String utilities mirroring the Go standard library -/

/-- List-level prefix test (`Bool`, executable). -/
def isPrefixL (p s : List Char) : Bool :=
  match p, s with
  | [], _ => true
  | _ :: _, [] => false
  | a :: p1, b :: s1 => a = b && isPrefixL p1 s1

/-- List-level substring test. -/
def containsL (s sub : List Char) : Bool :=
  match s with
  | [] => isPrefixL sub []
  | _ :: rest => isPrefixL sub s || containsL rest sub

/-- Go `strings.Contains(s, sub)`. -/
def strContains (s sub : String) : Bool :=
  containsL s.data sub.data

/-- Go `strings.HasSuffix(s, suf)`. -/
def strHasSuffix (s suf : String) : Bool :=
  isPrefixL suf.data.reverse s.data.reverse

/-- Go `strings.TrimPrefix(s, pre)`. -/
def strTrimPrefix (s pre : String) : String :=
  if isPrefixL pre.data s.data then ⟨s.data.drop pre.data.length⟩ else s

/-- Go `bufio.Scanner` with `ScanLines`: split at newlines, strip a
trailing carriage return, and do not emit a token for a final newline. -/
def goScanLines (input : String) : List String :=
  if input = "" then []
  else
    let parts := splitOnChar (Char.ofNat 10) input
    let parts := if parts.getLast? = some "" then parts.dropLast else parts
    parts.map fun l => if strHasSuffix l "\r" then ⟨l.data.dropLast⟩ else l

/-! ### The timestamp header pattern

`timestampPattern` in `analysis_utils.go` is
`(?i)^\s*(?:\x{200e})?\[?(\d{1,2}/\d{1,2}/\d{2,4}),\s*` followed by
`(\d{1,2}:\d{2}(?::\d{2})?(?:[\s\x{202f}](?:AM|PM))?)(?:\]?\s*-\s*|\]\s*)(.*?):\s*(.*)`.
`timestampMatch` implements it as a hand-written matcher: each quantifier
here is bounded by a following character of a different class, so maximal
digit runs realize the regex backtracking semantics; the separator
alternation is tried in the regex preference order, and the non-greedy
sender group stops at the first colon of the remainder. -/

/-- The `\s` class of the RE2 syntax: `[\t\n\f\r ]`. -/
def isRegexSpace (c : Char) : Bool :=
  c = ' ' || c = '\t' || c = '\n' || c = '\x0c' || c = '\x0d'

/-- Leading maximal digit run. -/
def digitRun (cs : List Char) : List Char × List Char :=
  match cs with
  | [] => ([], [])
  | c :: rest =>
      if c.isDigit then
        let (r, tail1) := digitRun rest
        (c :: r, tail1)
      else ([], cs)

/-- Consume `\s*`. -/
def skipRegexSpace (cs : List Char) : List Char :=
  match cs with
  | [] => []
  | c :: rest => if isRegexSpace c then skipRegexSpace rest else cs

/-- Match `(\d{1,2}/\d{1,2}/\d{2,4})` followed by `,`; returns the date
group and the remainder after the comma. -/
def matchDateGroup (cs : List Char) : Option (List Char × List Char) := do
  let (r1, cs) := digitRun cs
  if r1.length = 0 ∨ 2 < r1.length then none else
  match cs with
  | '/' :: cs => do
      let (r2, cs) := digitRun cs
      if r2.length = 0 ∨ 2 < r2.length then none else
      match cs with
      | '/' :: cs => do
          let (r3, cs) := digitRun cs
          if r3.length < 2 ∨ 4 < r3.length then none else
          match cs with
          | ',' :: cs => some (r1 ++ ['/'] ++ r2 ++ ['/'] ++ r3, cs)
          | _ => none
      | _ => none
  | _ => none

/-- Match the time group `\d{1,2}:\d{2}(?::\d{2})?` (without the optional
meridiem); returns the consumed characters and the remainder. -/
def matchTimeCore (cs : List Char) : Option (List Char × List Char) := do
  let (h, cs) := digitRun cs
  if h.length = 0 ∨ 2 < h.length then none else
  match cs with
  | ':' :: cs =>
      let (m, cs) := digitRun cs
      if m.length ≠ 2 then none else
      match cs with
      | ':' :: cs1 =>
          let (s, cs2) := digitRun cs1
          if s.length = 2 then some (h ++ [':'] ++ m ++ [':'] ++ s, cs2)
          else some (h ++ [':'] ++ m, ':' :: cs1)
      | _ => some (h ++ [':'] ++ m, cs)
  | _ => none

/-- Optional `(?:[\s\x{202f}](?:AM|PM))?` (case-insensitive). -/
def matchAmPm (cs : List Char) : Option (List Char × List Char) :=
  match cs with
  | sp :: a :: b :: rest =>
      if (isRegexSpace sp || sp = ' ') &&
         (a.toUpper = 'A' || a.toUpper = 'P') && b.toUpper = 'M' then
        some ([sp, a, b], rest)
      else none
  | _ => none

/-- The separator alternation `(?:\]?\s*-\s*|\]\s*)`, alternatives in the
regex preference order. -/
def matchSep (cs : List Char) : Option (List Char) :=
  let dashAfter : List Char → Option (List Char) := fun cs =>
    match skipRegexSpace cs with
    | '-' :: cs => some (skipRegexSpace cs)
    | _ => none
  match cs with
  | ']' :: cs1 =>
      match dashAfter cs1 with
      | some r => some r
      | none =>
          match dashAfter cs with
          | some r => some r
          | none => some (skipRegexSpace cs1)
  | _ => dashAfter cs

/-- Split the remainder at the first colon: `(.*?):\s*(.*)`. -/
def splitAtColon (cs : List Char) : Option (List Char × List Char) :=
  match cs with
  | [] => none
  | ':' :: rest => some ([], skipRegexSpace rest)
  | c :: rest => (splitAtColon rest).map fun (s, m) => (c :: s, m)

/-- `timestampPattern.FindStringSubmatch`: groups (date, time, sender,
message), or `none` when the line does not match. -/
def timestampMatch (line : String) : Option (String × String × String × String) := do
  let cs := skipRegexSpace line.data
  let cs := match cs with
            | '‎' :: rest => rest
            | _ => cs
  let cs := match cs with
            | '[' :: rest => rest
            | _ => cs
  let (dateG, cs) ← matchDateGroup cs
  let cs := skipRegexSpace cs
  let (timeCore, cs) ← matchTimeCore cs
  let (timeG, cs) :=
    match matchAmPm cs with
    | some (ampm, rest) =>
        match matchSep rest with
        | some _ => (timeCore ++ ampm, rest)
        | none => (timeCore, cs)
    | none => (timeCore, cs)
  let cs ← matchSep cs
  let (senderG, msgG) ← splitAtColon cs
  some (⟨dateG⟩, ⟨timeG⟩, ⟨senderG⟩, ⟨msgG⟩)

/-! ### Text cleaning (`cleanTextRemoveStopwords` and friends) -/

/-- Go `stringPunctuation`: the ASCII punctuation cutset used by
`normalizeWord` (codes 39 and 96 are the apostrophe and the backquote). -/
def stringPunctuation : List Char :=
  ['!', '\"', '#', '$', '%', '&', Char.ofNat 39, '(', ')', '*', '+', ',', '-', '.', '/',
   ':', ';', '<', '=', '>', '?', '@', '[', '\\', ']', '^', '_', Char.ofNat 96,
   '\x7b', '|', '\x7d', '~']

/-- URL-token start recognized by `urlPattern` (`https?://\S+|www\.\S+`). -/
def startsURL (cs : List Char) : Bool :=
  isPrefixL "https://".data cs || isPrefixL "http://".data cs || isPrefixL "www.".data cs

/-- Go `urlPattern.ReplaceAllString(text, "")`: delete every URL match.
A match starts at `http://`, `https://` or `www.` and extends over the
rest of the non-space run, where the regexp resumes scanning; the `Bool`
is the "inside a match" mode (the characters of the current match are
dropped until the next space). -/
def removeLinksAux : Bool → List Char → List Char
  | _, [] => []
  | skipping, c :: rest =>
      if skipping then
        if isRegexSpace c then c :: removeLinksAux false rest
        else removeLinksAux true rest
      else if startsURL (c :: rest) then removeLinksAux true rest
      else c :: removeLinksAux false rest

/-- Deletion of every URL match from a character list. -/
def removeLinksL (cs : List Char) : List Char := removeLinksAux false cs

/-- Go `removeLinks`. -/
def removeLinks (text : String) : String := ⟨removeLinksL text.data⟩

/-- Go `strings.Trim(word, stringPunctuation)`. -/
def trimCutset (cs : List Char) : List Char :=
  ((cs.dropWhile (· ∈ stringPunctuation)).reverse.dropWhile (· ∈ stringPunctuation)).reverse

/-- Go `normalizeWord`: trim the punctuation cutset, lower-case. -/
def normalizeWord (word : String) : String :=
  strToLower ⟨trimCutset word.data⟩

/-- Go `strings.Fields`. -/
def goFields (s : String) : List String :=
  (splitPredAux Char.isWhitespace [] s.data).filter (· ≠ "")

/-- Go `cleanTextRemoveStopwords` (the stop-word set is a load-time
parameter; `len(normalized)` is a byte length). -/
def cleanTextRemoveStopwords (stopwords : List String) (text : String) : String :=
  let text := removeLinks text
  let text := goTrimSpace text
  if text = "" then ""
  else
    let filteredWords := (goFields text).foldr (fun word acc =>
      let normalized := normalizeWord word
      if ¬ stopwords.contains normalized ∧ 2 < normalized.utf8ByteSize ∧ normalized ≠ ""
      then normalized :: acc else acc) []
    strJoin " " filteredWords

/-! ### Layout sniffing -/

/-- The 24 layout strings of `timestampParseLayouts` (`init` in
`analysis_utils.go`), in source order. -/
def timestampParseLayouts : List String :=
  ["1/2/06 3:04 PM", "1/2/2006 3:04 PM", "1/2/06 3:04:05 PM", "1/2/2006 3:04:05 PM",
   "01/02/06 3:04 PM", "01/02/2006 3:04 PM", "01/02/06 3:04:05 PM", "01/02/2006 3:04:05 PM",
   "2/1/06 15:04", "2/1/2006 15:04", "2/1/06 15:04:05", "2/1/2006 15:04:05",
   "02/01/06 15:04", "02/01/2006 15:04", "02/01/06 15:04:05", "02/01/2006 15:04:05",
   "2/1/06 3:04 PM", "2/1/2006 3:04 PM", "2/1/06 3:04:05 PM", "2/1/2006 3:04:05 PM",
   "02/01/06 3:04 PM", "02/01/2006 3:04 PM", "02/01/06 3:04:05 PM", "02/01/2006 3:04:05 PM"]

/-- `maxLinesToSniff` in the source. -/
def maxLinesToSniff : Nat := 100

/-- Sample collection of `sniffTimestampLayouts`: the first `maxLines`
scanned lines (all lines when `maxLines = 0`), trimmed, keeping only the
ones matching the timestamp pattern. -/
def sniffSampleLines (lines : List String) (maxLines : Nat) : List String :=
  (if maxLines = 0 then lines else lines.take maxLines).filterMap fun line =>
    let t := strTrimPrefix (goTrimSpace line) "‎"
    if (timestampMatch t).isSome then some t else none

/-- The `dateStr + " " + timeCleaned` string built from the match groups. -/
def datetimeOfMatch (g : String × String × String × String) : String :=
  goTrimSpace g.1 ++ " " ++ strToUpper (replaceChar ' ' ' ' (goTrimSpace g.2.1))

/-- The elimination loop: every sample line restricts the candidate set to
the layouts that parse its date-time (an empty set stays empty, which is
the source's early `break`). -/
def eliminateLayouts (samples : List String) (cands : List String) : List String :=
  samples.foldl (fun cl line =>
    match timestampMatch line with
    | none => cl
    | some g => cl.filter fun layout => (goTimeParse layout (datetimeOfMatch g)).isSome) cands

/-- The source's European-style (day-first) classification:
`strings.Contains(layout, "2/1/") || strings.Contains(layout, "02/01/")`. -/
def isEuropeanLayout (l : String) : Bool :=
  strContains l "2/1/" || strContains l "02/01/"

/-- The source's US-style (month-first) classification:
`strings.Contains(layout, "1/2/") || strings.Contains(layout, "01/02/")`. -/
def isUSLayout (l : String) : Bool :=
  strContains l "1/2/" || strContains l "01/02/"

/-- Go `sniffTimestampLayouts` (lines already scanned from the reader).
Every retained sample line matches the pattern, so
`actualTimestampsProcessed` equals the sample count and its zero test
coincides with the empty-sample test. -/
def sniffTimestampLayouts (lines : List String) (allLayouts : List String) (maxLines : Nat) :
    Except String (List String) :=
  let sampleLines := sniffSampleLines lines maxLines
  if sampleLines = [] then
    .error "no valid timestamp lines found to sniff format from"
  else
    let candidateLayouts := eliminateLayouts sampleLines allLayouts
    if candidateLayouts = [] then
      .error "no timestamp layout consistently parsed the sample data"
    else if 1 < candidateLayouts.length then
      let europeanStyleLayouts := candidateLayouts.filter isEuropeanLayout
      let usStyleLayouts :=
        candidateLayouts.filter fun l => ¬ isEuropeanLayout l ∧ isUSLayout l
      if europeanStyleLayouts ≠ [] then .ok europeanStyleLayouts
      else if usStyleLayouts ≠ [] then .ok usStyleLayouts
      else .ok candidateLayouts
    else .ok candidateLayouts

/-! ### The parser main pass (`preprocessMessages`) -/

/-- The atom of the stream (`ParsedMessage` in `analysis_utils.go`);
`timestamp` is seconds since the Unix epoch, UTC. -/
structure ParsedMessage where
  timestamp : Int
  dateStr : String
  sender : String
  cleanedMessage : String
  originalMessage : String
deriving DecidableEq, Repr

/-- The system/media filter of the main pass: a pattern hit on the
lower-cased body, or one of the three hard-coded media markers. -/
def isSystemOrMedia (sysPatterns : List String) (message : String) : Bool :=
  let lowerCaseMessage := strToLower message
  sysPatterns.any (fun p => strContains lowerCaseMessage p) ||
  strContains message "<attached:" || strContains message " omitted>" ||
  strContains message "omitted media"

/-- The per-layout compatibility pre-check of the main parse loop. -/
def layoutCompatible (layout timeCleaned : String) : Bool :=
  let hasSecondsLayout := strContains layout ":05"
  let hasSecondsData := decide (2 ≤ timeCleaned.data.count ':')
  let hasAmPmLayout := strContains layout " PM"
  let hasAmPmData := strHasSuffix timeCleaned " AM" || strHasSuffix timeCleaned " PM"
  hasSecondsLayout = hasSecondsData && hasAmPmLayout = hasAmPmData

/-- The layout loop of the main pass: first compatible layout that parses. -/
def parseWithLayouts (layouts : List String) (timeCleaned datetimeStr : String) : Option Int :=
  match layouts with
  | [] => none
  | layout :: rest =>
      if ¬ layoutCompatible layout timeCleaned then parseWithLayouts rest timeCleaned datetimeStr
      else
        match goTimeParse layout datetimeStr with
        | some t => some t
        | none => parseWithLayouts rest timeCleaned datetimeStr

/-- One iteration of the main scan loop of `preprocessMessages`: the
accumulator carries `(rawMessageCount, messagesData)`. -/
def processLine (stopwords sysPatterns layouts : List String)
    (acc : Nat × List ParsedMessage) (rawLine : String) : Nat × List ParsedMessage :=
  let line := goTrimSpace rawLine
  if line = "" then acc
  else
    let raw := acc.1 + 1
    let line := strTrimPrefix line "‎"
    match timestampMatch line with
    | none => (raw, acc.2)
    | some g =>
        let dateStr := goTrimSpace g.1
        let timeStr := goTrimSpace g.2.1
        let sender := goTrimSpace g.2.2.1
        let message := strTrimPrefix (goTrimSpace g.2.2.2) "‎"
        if isSystemOrMedia sysPatterns message then (raw, acc.2)
        else
          let timeCleaned := strToUpper (replaceChar ' ' ' ' timeStr)
          let datetimeStr := dateStr ++ " " ++ timeCleaned
          match parseWithLayouts layouts timeCleaned datetimeStr with
          | none => (raw, acc.2)
          | some timestamp =>
              let cleanedMessage := cleanTextRemoveStopwords stopwords message
              if cleanedMessage ≠ "" then
                (raw, acc.2 ++ [⟨timestamp, dateStr, sender, cleanedMessage, message⟩])
              else
                (raw, acc.2)

/-- Go `preprocessMessages`: sniff (with fallback to the full global
layout list), then the main scan; returns `(rawMessageCount, messagesData)`. -/
def preprocessMessages (stopwords sysPatterns : List String) (input : String) :
    Except String (Nat × List ParsedMessage) :=
  let lines := goScanLines input
  let currentLayouts :=
    match sniffTimestampLayouts lines timestampParseLayouts maxLinesToSniff with
    | .ok ls => if ls = [] then timestampParseLayouts else ls
    | .error _ => timestampParseLayouts
  if currentLayouts = [] then .error "no timestamp layouts available even in global list"
  else .ok (lines.foldl (processLine stopwords sysPatterns currentLayouts) (0, []))

/-! ### Rational model of the float operations -/

/-- Floor of a rational, written on the normalized numerator and
denominator so that the kernel can evaluate it. -/
def ratFloor (q : Rat) : Int := q.num.fdiv (q.den : Int)

/-- Go float-to-integer conversion: truncation toward zero. -/
def ratTrunc (q : Rat) : Int := q.num.tdiv (q.den : Int)

/-- Go `math.Round`: round half away from zero. -/
def mathRound (q : Rat) : Int :=
  if 0 ≤ q then ratFloor (q + 1 / 2) else -(ratFloor (1 / 2 - q))

/-- Go `roundFloat(val, precision)` over the rational model. -/
def roundFloat (val : Rat) (precision : Nat) : Rat :=
  (mathRound (val * (10 : Rat) ^ precision) : Rat) / (10 : Rat) ^ precision

/-! ### Percentile and the dynamic conversation break -/

/-- Go `calculatePercentile` (`part_011`, lines 66–94), translated
verbatim; `int(rank)` truncates toward zero (`ratTrunc`), which on the
positive `rank` of the interior branch is the floor.  The final line keeps
the source's `d*(valK-valK)` expression. -/
def calculatePercentile (sortedData : List Rat) (p : Rat) : Rat :=
  let n := sortedData.length
  if n = 0 then 0
  else if p ≤ 0 then sortedData.headD 0
  else if 100 ≤ p then sortedData.getLastD 0
  else
    let rank := p / 100 * ((n : Rat) + 1)
    let k := (ratTrunc rank).toNat
    let d := rank - (k : Rat)
    if k = 0 then sortedData.headD 0
    else if n ≤ k then sortedData.getLastD 0
    else
      let valKMinus1 := sortedData.getD (k - 1) 0
      let valK := sortedData.getD k 0
      valKMinus1 + d * (valK - valK)

/-- Ascending insertion sort on rationals (`sort.Float64s`). -/
def insertRat (x : Rat) : List Rat → List Rat
  | [] => [x]
  | y :: ys => if x ≤ y then x :: y :: ys else y :: insertRat x ys

/-- Go `sort.Float64s` (ascending). -/
def sortRats (l : List Rat) : List Rat := l.foldr insertRat []

/-- The gap-collection loop of `calculateDynamicConvoBreak`: eligible
cross-sender gaps in minutes, in stream order. -/
def collectResponseTimes (msgs : List ParsedMessage) : List Rat :=
  (msgs.foldl (fun (acc : List Rat × Int × String × Bool) msg =>
    let (times, lastTimestamp, lastSender, processed) := acc
    let times :=
      if processed ∧ lastSender ≠ "" ∧ msg.sender ≠ lastSender then
        let timeDiffSeconds := msg.timestamp - lastTimestamp
        if 5 < timeDiffSeconds ∧ timeDiffSeconds < 12 * 3600 then
          times ++ [(timeDiffSeconds : Rat) / 60]
        else times
      else times
    (times, msg.timestamp, msg.sender, true)) ([], 0, "", false)).1

/-- Go `calculateDynamicConvoBreak` (`part_011`, lines 96–131). -/
def calculateDynamicConvoBreak (msgs : List ParsedMessage)
    (defaultBreakMinutes minBreak maxBreak : Nat) : Nat :=
  let responseTimesMinutes := collectResponseTimes msgs
  if responseTimesMinutes.length < 20 then defaultBreakMinutes
  else
    let sorted := sortRats responseTimesMinutes
    let p85 := calculatePercentile sorted 85
    let dynamicBreak := p85 + 30
    let clamped := max (minBreak : Rat) (min dynamicBreak (maxBreak : Rat))
    (mathRound clamped).toNat

/-! ### Word and emoji extraction -/

/-- RE2 `\w` (ASCII word character). -/
def isWordChar (c : Char) : Bool := c.isAlphanum || c = '_'

/-- Maximal word-character runs of a string. -/
def wordRuns (cs : List Char) (acc : List Char) : List (List Char) :=
  match cs with
  | [] => if acc = [] then [] else [acc.reverse]
  | c :: rest =>
      if isWordChar c then wordRuns rest (c :: acc)
      else if acc = [] then wordRuns rest [] else acc.reverse :: wordRuns rest []

/-- `wordRegex.FindAllString`: the pattern `\b[a-zA-Z0-9]{3,}\b` matches
exactly the maximal word-character runs that contain no underscore (a run
touching an underscore has no boundary there) and have length at least 3. -/
def wordRegexTokens (s : String) : List String :=
  ((wordRuns s.data []).filter fun r => ¬ r.contains '_' ∧ 3 ≤ r.length).map (⟨·⟩)

/-- Membership in the character class of `emojiPattern`. -/
def isEmojiChar (c : Char) : Bool :=
  let v := c.val.toNat
  (0x1F300 ≤ v && v ≤ 0x1F5FF) || (0x1F600 ≤ v && v ≤ 0x1F64F) ||
  (0x1F680 ≤ v && v ≤ 0x1F6FF) || (0x1F1E0 ≤ v && v ≤ 0x1F1FF) ||
  (0x2700 ≤ v && v ≤ 0x27BF) || (0x2600 ≤ v && v ≤ 0x26FF) ||
  (0xFE00 ≤ v && v ≤ 0xFE0F) || (0x1F900 ≤ v && v ≤ 0x1F9FF)

/-- Maximal emoji-character runs (`emojiPattern.FindAllString`). -/
def emojiRuns (cs : List Char) (acc : List Char) : List (List Char) :=
  match cs with
  | [] => if acc = [] then [] else [acc.reverse]
  | c :: rest =>
      if isEmojiChar c then emojiRuns rest (c :: acc)
      else if acc = [] then emojiRuns rest [] else acc.reverse :: emojiRuns rest []

/-- The combining test of the cluster loop: `unicode.Is(unicode.Mn, r) ||
unicode.Is(unicode.Sk, r) || 0x1F3FB ≤ r ≤ 0x1F3FF`.  Within the
`emojiPattern` class the `Mn` characters are exactly `U+FE00–U+FE0F` and
the `Sk` characters exactly the skin tones `U+1F3FB–U+1F3FF`. -/
def isCombiningEmoji (c : Char) : Bool :=
  let v := c.val.toNat
  (0xFE00 ≤ v && v ≤ 0xFE0F) || (0x1F3FB ≤ v && v ≤ 0x1F3FF)

/-- The cluster loop over the runes of one emoji run. -/
def emojiClusters (runes : List Char) : List String :=
  match runes with
  | [] => []
  | a :: b :: rest =>
      if isCombiningEmoji b then ⟨[a, b]⟩ :: emojiClusters rest
      else (⟨[a]⟩ : String) :: emojiClusters (b :: rest)
  | [a] => [⟨[a]⟩]

/-- All emoji clusters of a message body, in order. -/
def emojiClustersOf (s : String) : List String :=
  (emojiRuns s.data []).flatMap emojiClusters

/-! ### `sort.Strings` and `countTopN` -/

/-- Lexicographic comparison of character lists by code point; on valid
UTF-8 this is exactly Go's byte-wise string order. -/
def listStrLe : List Char → List Char → Bool
  | [], _ => true
  | _ :: _, [] => false
  | a :: as, b :: bs =>
      if a.toNat < b.toNat then true
      else if b.toNat < a.toNat then false
      else listStrLe as bs

/-- Go's string order (`s1 <= s2`). -/
def strLe (a b : String) : Bool := listStrLe a.data b.data

/-- The string order as a relation. -/
def strLeRel (a b : String) : Prop := strLe a b = true

instance : DecidableRel strLeRel := fun a b => inferInstanceAs (Decidable (_ = true))

/-- Ascending insertion step for strings. -/
def insertStr (x : String) : List String → List String
  | [] => [x]
  | y :: ys => if strLe x y then x :: y :: ys else y :: insertStr x ys

/-- Go `sort.Strings` (ascending lexicographic). -/
def sortStrings (l : List String) : List String := l.foldr insertStr []

theorem listStrLe_total (a b : List Char) : listStrLe a b = true ∨ listStrLe b a = true := by
  induction a generalizing b with
  | nil => exact Or.inl rfl
  | cons x xs ih =>
      cases b with
      | nil => exact Or.inr rfl
      | cons y ys =>
          by_cases h1 : x.toNat < y.toNat
          · left
            simp [listStrLe, h1]
          · by_cases h2 : y.toNat < x.toNat
            · right
              simp [listStrLe, h1, h2]
            · rcases ih ys with h | h
              · left
                simpa [listStrLe, h1, h2] using h
              · right
                have h1s : ¬ y.toNat < x.toNat := h2
                simpa [listStrLe, h2, h1] using h

theorem listStrLe_trans (a b c : List Char) (hab : listStrLe a b = true)
    (hbc : listStrLe b c = true) : listStrLe a c = true := by
  induction a generalizing b c with
  | nil => rfl
  | cons x xs ih =>
      cases b with
      | nil => simp [listStrLe] at hab
      | cons y ys =>
          cases c with
          | nil => simp [listStrLe] at hbc
          | cons z zs =>
              simp only [listStrLe] at hab hbc ⊢
              by_cases hxy : x.toNat < y.toNat
              · by_cases hyz : y.toNat < z.toNat
                · simp [show x.toNat < z.toNat from Nat.lt_trans hxy hyz]
                · by_cases hzy : z.toNat < y.toNat
                  · simp [hyz, hzy] at hbc
                  · have hyz2 : y.toNat = z.toNat := Nat.le_antisymm
                      (Nat.le_of_not_lt hzy) (Nat.le_of_not_lt hyz)
                    simp [show x.toNat < z.toNat from hyz2 ▸ hxy]
              · by_cases hyx : y.toNat < x.toNat
                · simp [hxy, hyx] at hab
                · have hxy2 : x.toNat = y.toNat := Nat.le_antisymm
                    (Nat.le_of_not_lt hyx) (Nat.le_of_not_lt hxy)
                  by_cases hyz : y.toNat < z.toNat
                  · simp [hxy2 ▸ hyz]
                  · by_cases hzy : z.toNat < y.toNat
                    · simp [hyz, hzy] at hbc
                    · have hyz2 : y.toNat = z.toNat := Nat.le_antisymm
                        (Nat.le_of_not_lt hzy) (Nat.le_of_not_lt hyz)
                      simp only [hxy2, hyz2, Nat.lt_irrefl, if_false]
                      simp only [hxy, hyx, if_false] at hab
                      simp only [hyz, hzy, if_false] at hbc
                      exact ih ys zs (by simpa [hxy2, Nat.lt_irrefl] using hab)
                        (by simpa [hyz2, Nat.lt_irrefl] using hbc)

instance : IsTotal String strLeRel := ⟨fun a b => listStrLe_total a.data b.data⟩

instance : IsTrans String strLeRel :=
  ⟨fun a b c => listStrLe_trans a.data b.data c.data⟩

/-- Descending-by-value insertion step for counter entries. -/
def insertByValueDesc (x : String × Nat) : List (String × Nat) → List (String × Nat)
  | [] => [x]
  | y :: ys => if y.2 < x.2 then x :: y :: ys else y :: insertByValueDesc x ys

/-- Go `countTopN`: sort the counter entries by value, descending, and
keep the first `n`.  The source uses an unstable `sort.Slice`, so the
relative order of equal counts is unspecified there; this model keeps the
insertion order among ties (no claim depends on the tie order). -/
def countTopN (counter : List (String × Nat)) (n : Nat) : List (String × Nat) :=
  (counter.foldr insertByValueDesc []).take n

/-! ### The single statistics pass -/

/-- Champion record (`ChampionInfo`). -/
structure ChampionInfo where
  user : String
  count : Nat
deriving DecidableEq, Repr

/-- One point of a Nivo monthly series (`NivoPoint`). -/
structure NivoPoint where
  x : String
  y : Nat
deriving DecidableEq, Repr

/-- One monthly series (`NivoLineData`). -/
structure NivoLineData where
  id : String
  data : List NivoPoint
deriving DecidableEq, Repr

/-- A cell of the rendered interaction matrix (`[][]interface{}`): the
`nil` corner, a user label, or a count. -/
inductive MatrixCell where
  | corner
  | name (s : String)
  | cnt (n : Nat)
deriving DecidableEq, Repr

/-- Weekday/weekend aggregate (`WeekdayWeekendAverage`). -/
structure WeekdayWeekendAverage where
  averageWeekdayMessages : Rat
  averageWeekendMessages : Rat
  difference : Rat
  percentageDifference : Rat
deriving DecidableEq, Repr

/-- The aggregate entity (`ChatStatistics`). -/
structure ChatStatistics where
  totalMessages : Nat
  daysActive : Int
  userMessageCount : List (String × Nat)
  mostActiveUsersPct : List (String × Rat)
  conversationStartersPct : List (String × Rat)
  mostIgnoredUsersPct : List (String × Rat)
  firstTextChampion : ChampionInfo
  longestMonologue : ChampionInfo
  commonWords : List (String × Nat)
  commonEmojis : List (String × Nat)
  averageResponseTimeMinutes : Rat
  peakHour : Option Nat
  userMonthlyActivity : List NivoLineData
  weekdayVsWeekendAvg : WeekdayWeekendAverage
  userInteractionMatrix : Option (List (List MatrixCell))
deriving DecidableEq, Repr

/-- The mutable state of the single pass in `calculateChatStatistics`.
`currentConvoStartSender` is omitted: it is set and consumed within one
iteration (it survives an iteration only as the empty string), so it is a
local of `statsStep`.  `isFirst` stands for the source's `i == 0` test. -/
structure StatsState where
  userMessageCount : List (String × Nat) := []
  userStartsConvo : List (String × Nat) := []
  userFirstTexts : List (String × Nat) := []
  wordCounter : List (String × Nat) := []
  emojiCounter : List (String × Nat) := []
  dailyMessageCountByDate : List (String × Nat) := []
  hourlyMessageCount : List (Nat × Nat) := []
  dailyMessageCountByWeekday : List (Nat × Nat) := []
  monthlyActivityByUser : List (String × List (String × Nat)) := []
  totalResponseTimeSeconds : Int := 0
  responseCount : Nat := 0
  interactionMatrix : List (String × List (String × Nat)) := []
  maxMonologueCount : Nat := 0
  maxMonologueSender : String := ""
  currentStreakCount : Nat := 0
  currentStreakSender : String := ""
  lastTimestamp : Int := 0
  lastSender : String := ""
  lastDateStr : String := ""
  allMonths : List String := []
  userIgnoredCount : List (String × Nat) := []
  isFirst : Bool := true
deriving Repr

/-! The first if-chain of the loop body (`part_011`, lines 205–224) sets
`isNewConvo`, the response-time accumulators and the interaction matrix
together; the branch conditions are pure, so the chain is split below into
one function per updated field, each repeating the conditions verbatim. -/

/-- `isNewConvo` after the first if-chain: first message, or
`timeDiff > convoBreakDuration`. -/
def stepIsNewConvo (c : Int) (isFirst : Bool) (lastTimestamp : Int)
    (msg : ParsedMessage) : Bool :=
  isFirst || c < msg.timestamp - lastTimestamp

/-- The response-time accumulators `(totalResponseTimeSeconds,
responseCount)` after the first if-chain. -/
def stepResponse (c : Int) (isFirst : Bool) (lastSender : String) (lastTimestamp : Int)
    (tot : Int) (cnt : Nat) (msg : ParsedMessage) : Int × Nat :=
  let timeDiff := msg.timestamp - lastTimestamp
  if isFirst then (tot, cnt)
  else if c < timeDiff then (tot, cnt)
  else if lastSender ≠ "" ∧ msg.sender ≠ lastSender then
    if 5 < timeDiff ∧ timeDiff < 12 * 3600 then (tot + timeDiff, cnt + 1) else (tot, cnt)
  else (tot, cnt)

/-- The interaction matrix after the first if-chain: the cell
`(lastSender → msg.sender)` is bumped exactly in the cross-sender branch
that is not a new conversation. -/
def stepInteraction (c : Int) (isFirst : Bool) (lastSender : String) (lastTimestamp : Int)
    (m : List (String × List (String × Nat))) (msg : ParsedMessage) :
    List (String × List (String × Nat)) :=
  if isFirst then m
  else if c < msg.timestamp - lastTimestamp then m
  else if lastSender ≠ "" ∧ msg.sender ≠ lastSender then bump2 m lastSender msg.sender
  else m

/-- The first-text-per-day update: `(userFirstTexts, lastDateStr)`. -/
def stepFirstTexts (ft : List (String × Nat)) (lastDateStr : String)
    (msg : ParsedMessage) : List (String × Nat) × String :=
  let currentDateStr := goFormatDate msg.timestamp
  if currentDateStr ≠ lastDateStr then (bump ft msg.sender, currentDateStr)
  else (ft, lastDateStr)

/-- The monologue-streak update: `(maxMonologueCount, maxMonologueSender,
currentStreakCount, currentStreakSender)`. -/
def stepMonologue (maxCnt : Nat) (maxSnd : String) (curCnt : Nat) (curSnd : String)
    (msg : ParsedMessage) : Nat × String × Nat × String :=
  if msg.sender = curSnd then (maxCnt, maxSnd, curCnt + 1, curSnd)
  else if curSnd ≠ "" ∧ maxCnt < curCnt then (curCnt, curSnd, 1, msg.sender)
  else (maxCnt, maxSnd, 1, msg.sender)

/-- The loop body of the single pass (`part_011`, lines 201–297); `next?`
is the look-ahead `messagesData[i+1]` used by the ignored counter. -/
def statsStep (convoBreakSeconds : Int) (stopwords : List String)
    (s : StatsState) (msg : ParsedMessage) (next? : Option ParsedMessage) : StatsState :=
  { userMessageCount := bump s.userMessageCount msg.sender,
    userStartsConvo :=
      if stepIsNewConvo convoBreakSeconds s.isFirst s.lastTimestamp msg ∧ msg.sender ≠ "" then
        bump s.userStartsConvo msg.sender
      else s.userStartsConvo,
    userFirstTexts := (stepFirstTexts s.userFirstTexts s.lastDateStr msg).1,
    wordCounter := (wordRegexTokens (strToLower msg.cleanedMessage)).foldl (fun wc word =>
      if stopwords.contains word then wc else bump wc word) s.wordCounter,
    emojiCounter := (emojiClustersOf msg.originalMessage).foldl bump s.emojiCounter,
    dailyMessageCountByDate := bump s.dailyMessageCountByDate (goFormatDate msg.timestamp),
    hourlyMessageCount := bumpN s.hourlyMessageCount (goHour msg.timestamp),
    dailyMessageCountByWeekday := bumpN s.dailyMessageCountByWeekday (goWeekday msg.timestamp),
    monthlyActivityByUser := bump2 s.monthlyActivityByUser msg.sender (goFormatMonth msg.timestamp),
    totalResponseTimeSeconds :=
      (stepResponse convoBreakSeconds s.isFirst s.lastSender s.lastTimestamp
        s.totalResponseTimeSeconds s.responseCount msg).1,
    responseCount :=
      (stepResponse convoBreakSeconds s.isFirst s.lastSender s.lastTimestamp
        s.totalResponseTimeSeconds s.responseCount msg).2,
    interactionMatrix :=
      stepInteraction convoBreakSeconds s.isFirst s.lastSender s.lastTimestamp
        s.interactionMatrix msg,
    maxMonologueCount :=
      (stepMonologue s.maxMonologueCount s.maxMonologueSender s.currentStreakCount
        s.currentStreakSender msg).1,
    maxMonologueSender :=
      (stepMonologue s.maxMonologueCount s.maxMonologueSender s.currentStreakCount
        s.currentStreakSender msg).2.1,
    currentStreakCount :=
      (stepMonologue s.maxMonologueCount s.maxMonologueSender s.currentStreakCount
        s.currentStreakSender msg).2.2.1,
    currentStreakSender :=
      (stepMonologue s.maxMonologueCount s.maxMonologueSender s.currentStreakCount
        s.currentStreakSender msg).2.2.2,
    lastTimestamp := msg.timestamp,
    lastSender := msg.sender,
    lastDateStr := (stepFirstTexts s.userFirstTexts s.lastDateStr msg).2,
    allMonths := insertNew s.allMonths (goFormatMonth msg.timestamp),
    userIgnoredCount :=
      match next? with
      | some nxt =>
          if nxt.sender = msg.sender then bump s.userIgnoredCount msg.sender
          else s.userIgnoredCount
      | none => s.userIgnoredCount,
    isFirst := false }

/-- The single pass itself. -/
def statsLoop (convoBreakSeconds : Int) (stopwords : List String)
    (s : StatsState) : List ParsedMessage → StatsState
  | [] => s
  | msg :: rest =>
      statsLoop convoBreakSeconds stopwords
        (statsStep convoBreakSeconds stopwords s msg rest.head?) rest

/-- The post-loop streak flush (`part_011`, lines 299–302). -/
def finalizeMonologue (s : StatsState) : ChampionInfo :=
  if s.currentStreakSender ≠ "" ∧ s.maxMonologueCount < s.currentStreakCount then
    ⟨s.currentStreakSender, s.currentStreakCount⟩
  else ⟨s.maxMonologueSender, s.maxMonologueCount⟩

/-- The first-text-champion scan (`maxFirstTexts := -1`; strict
improvement, so the resulting count is the maximum of the map values; the
winning user on ties depends on the map iteration order and is taken here
in insertion order — no claim depends on the user). -/
def firstTextChampionOf (m : List (String × Nat)) : ChampionInfo :=
  (m.foldl (fun (acc : Int × ChampionInfo) p =>
    if acc.1 < (p.2 : Int) then ((p.2 : Int), ⟨p.1, p.2⟩) else acc) (-1, ⟨"", 0⟩)).2

/-- The peak-hour scan (`maxHourCount := -1`), over the entries of
`hourlyMessageCount` in the (unspecified) range order given by `entries`. -/
def peakHourFrom (entries : List (Nat × Nat)) : Option Nat :=
  (entries.foldl (fun (acc : Int × Option Nat) p =>
    if acc.1 < (p.2 : Int) then ((p.2 : Int), some p.1) else acc) (-1, none)).2

/-! ### Derived outputs -/

/-- Go `getMonthlyActivity` (`part_011`, lines 388–411): one series per
user of the sorted user list, one point per month of the sorted key set of
`allMonths`, with the per-user count (0 when the user has no entry). -/
def getMonthlyActivity (monthlyActivityByUser : List (String × List (String × Nat)))
    (allMonths : List String) (allUsersList : List String) : List NivoLineData :=
  if allMonths = [] ∨ allUsersList = [] then []
  else
    let sortedMonths := sortStrings allMonths
    let sortedUsers := sortStrings allUsersList
    sortedUsers.map fun user =>
      ⟨user, sortedMonths.map fun monthStr =>
        ⟨monthStr, lookup2 monthlyActivityByUser user monthStr⟩⟩

/-- Go `calcWeekdayWeekendAvg` (`part_011`, lines 413–447). -/
def calcWeekdayWeekendAvg (dailyMessageCountByWeekday : List (Nat × Nat)) :
    WeekdayWeekendAverage :=
  let totalWeekday := lookupDN dailyMessageCountByWeekday 1 +
    lookupDN dailyMessageCountByWeekday 2 + lookupDN dailyMessageCountByWeekday 3 +
    lookupDN dailyMessageCountByWeekday 4 + lookupDN dailyMessageCountByWeekday 5
  let totalWeekend := lookupDN dailyMessageCountByWeekday 0 +
    lookupDN dailyMessageCountByWeekday 6
  let avgWeekday := if 0 < totalWeekday then roundFloat ((totalWeekday : Rat) / 5) 2 else 0
  let avgWeekend := if 0 < totalWeekend then roundFloat ((totalWeekend : Rat) / 2) 2 else 0
  let diff := roundFloat (avgWeekday - avgWeekend) 2
  let pctDiff := if 0 < avgWeekday then roundFloat (diff / avgWeekday * 100) 2 else 0
  ⟨avgWeekday, avgWeekend, diff, pctDiff⟩

/-- Go `formatInteractionMatrix` (`part_011`, lines 449–482): `none`
models the `nil` return for at most one user. -/
def formatInteractionMatrix (interactionMatrix : List (String × List (String × Nat)))
    (allUsersList : List String) : Option (List (List MatrixCell)) :=
  if allUsersList.length ≤ 1 then none
  else
    let sortedUsers := sortStrings allUsersList
    let matrixHeader := MatrixCell.corner :: sortedUsers.map MatrixCell.name
    let rows := sortedUsers.map fun sender =>
      MatrixCell.name sender ::
        sortedUsers.map fun target => MatrixCell.cnt (lookup2 interactionMatrix sender target)
    some (matrixHeader :: rows)

/-- The Unix-seconds value of Go's zero time (January 1 of year 1,
00:00 UTC) — what `time.Parse` returns for a `1/1/0001, 0:00` timestamp,
and what `Time.IsZero` tests for. -/
def goZeroTimeSec : Int := daysFromCivil 1 1 1 * 86400

/-- Go `t2.Sub(t1)` in nanoseconds: a `time.Duration` is an `int64`, and
`Sub` saturates at its bounds instead of overflowing. -/
def goSubNs (t2 t1 : Int) : Int :=
  if (t2 - t1) * 1000000000 < -(2 ^ 63) then -(2 ^ 63)
  else if 2 ^ 63 - 1 < (t2 - t1) * 1000000000 then 2 ^ 63 - 1
  else (t2 - t1) * 1000000000

/-- Go `calculateChatStatistics` (`part_011`, lines 161–386).  Beside the
source parameters it takes the loaded stop-word set and `hourOrder`, the
order in which the range loop of the peak-hour scan visits the entries of
`hourlyMessageCount` (theorems quantify over its permutations).
`DaysActive` is set only under the source's `IsZero` guard on the first
and last timestamps (a `1/1/0001, 0:00` line parses to Go's zero time)
and stays 0 otherwise; `latest.Sub(first)` saturates at the `int64`
`Duration` range, and `int(….Hours()/24)` truncates toward zero, which is
`Int.tdiv` of the saturated nanosecond difference by the nanoseconds of
24 hours. -/
def calculateChatStatistics (stopwords : List String) (messagesData : List ParsedMessage)
    (convoBreakMinutes : Nat) (hourOrder : List (Nat × Nat)) : Except String ChatStatistics :=
  if h : messagesData = [] then .error "cannot calculate statistics on empty message list"
  else
    let firstMessageTimestamp := (messagesData.head (by simpa using h)).timestamp
    let latestMessageTimestamp := (messagesData.getLast (by simpa using h)).timestamp
    let convoBreakSeconds : Int := (convoBreakMinutes : Int) * 60
    let st := statsLoop convoBreakSeconds stopwords {} messagesData
    let totalMessages := messagesData.length
    let mostActiveUsersPct := st.userMessageCount.map fun p =>
      (p.1, roundFloat ((p.2 : Rat) * 100 / (totalMessages : Rat)) 2)
    let totalStarts : Nat := (st.userStartsConvo.map (·.2)).sum
    let conversationStartersPct :=
      if 0 < totalStarts then
        st.userStartsConvo.map fun p => (p.1, roundFloat ((p.2 : Rat) * 100 / (totalStarts : Rat)) 2)
      else []
    let totalIgnored : Nat := (st.userIgnoredCount.map (·.2)).sum
    let mostIgnoredUsersPct :=
      if 0 < totalIgnored then
        st.userIgnoredCount.map fun p => (p.1, roundFloat ((p.2 : Rat) * 100 / (totalIgnored : Rat)) 2)
      else []
    let averageResponseTimeMinutes :=
      if 0 < st.responseCount then
        roundFloat ((st.totalResponseTimeSeconds : Rat) / (st.responseCount : Rat) / 60) 2
      else 0
    let daysActive :=
      if firstMessageTimestamp ≠ goZeroTimeSec ∧ latestMessageTimestamp ≠ goZeroTimeSec then
        Int.tdiv (goSubNs latestMessageTimestamp firstMessageTimestamp) 86400000000000 + 1
      else 0
    .ok {
      totalMessages
      daysActive
      userMessageCount := st.userMessageCount
      mostActiveUsersPct
      conversationStartersPct
      mostIgnoredUsersPct
      firstTextChampion := firstTextChampionOf st.userFirstTexts
      longestMonologue := finalizeMonologue st
      commonWords := countTopN st.wordCounter 10
      commonEmojis := countTopN st.emojiCounter 6
      averageResponseTimeMinutes
      peakHour := peakHourFrom hourOrder
      userMonthlyActivity :=
        getMonthlyActivity st.monthlyActivityByUser st.allMonths (alKeys st.userMessageCount)
      weekdayVsWeekendAvg := calcWeekdayWeekendAvg st.dailyMessageCountByWeekday
      userInteractionMatrix :=
        formatInteractionMatrix st.interactionMatrix (alKeys st.userMessageCount) }

/-! ### Topic segmentation (`groupMessagesByTopic`) -/

/-- Go `removeEmojis`: `emojiPattern.ReplaceAllString(text, "")`, i.e.
deletion of every character of the emoji class. -/
def removeEmojis (text : String) : String :=
  ⟨text.data.filter fun c => ¬ isEmojiChar c⟩

/-- Stable ascending insertion by timestamp: an element is placed before
the first strictly later element, after equal ones, preserving the
original order of equals — the behaviour of `sort.SliceStable` with the
`Before` comparator. -/
def insertByTime (x : ParsedMessage) : List ParsedMessage → List ParsedMessage
  | [] => [x]
  | y :: ys => if x.timestamp ≤ y.timestamp then x :: y :: ys else y :: insertByTime x ys

/-- Model of `sort.SliceStable(data, ...Before...)`: the stable sort by
timestamp (the stable sorted permutation is unique, so any stable sorting
algorithm computes this function). -/
def stableSortByTimestamp (l : List ParsedMessage) : List ParsedMessage :=
  l.foldr insertByTime []

/-- The raw grouping loop of `groupMessagesByTopic`: close the current
topic when the inter-record gap reaches `gapNs` nanoseconds. -/
def splitTopicsLoop (gapNs : Int) (prev : ParsedMessage)
    (currentTopic : List ParsedMessage) : List ParsedMessage → List (List ParsedMessage)
  | [] => if currentTopic ≠ [] then [currentTopic] else []
  | cur :: rest =>
      let timeDiffNs := (cur.timestamp - prev.timestamp) * 1000000000
      if gapNs ≤ timeDiffNs then
        (if currentTopic ≠ [] then [currentTopic] else []) ++
          splitTopicsLoop gapNs cur [cur] rest
      else
        splitTopicsLoop gapNs cur (currentTopic ++ [cur]) rest

/-- The per-topic post-processing: strip emoji from `cleanedMessage`,
drop records whose stripped text is empty. -/
def processTopic (t : List ParsedMessage) : List ParsedMessage :=
  t.foldr (fun msg acc =>
    let emojiFree := goTrimSpace (removeEmojis msg.cleanedMessage)
    if emojiFree ≠ "" then { msg with cleanedMessage := emojiFree } :: acc else acc) []

/-- Go `groupMessagesByTopic` (`analysis_utils.go`, lines 414–463).  The
slice header is passed by value but shares its backing array with the
caller, and `sort.SliceStable(data, ...)` permutes that array in place;
the first component of the result is the caller-visible content of the
slice after the call (`time.Duration(gapHours * float64(time.Hour))`
truncates toward zero, modelled by `ratTrunc` over nanoseconds). -/
def groupMessagesByTopic (data : List ParsedMessage) (gapHours : Rat) :
    List ParsedMessage × List (List ParsedMessage) :=
  if data = [] then (data, [])
  else
    let sorted := stableSortByTimestamp data
    let gapNs := ratTrunc (gapHours * 3600000000000)
    match sorted with
    | [] => (sorted, [])
    | first :: rest =>
        let grouped := splitTopicsLoop gapNs first [first] rest
        (sorted, (grouped.map processTopic).filter (· ≠ []))

/-! ### The orchestrator (`AnalyzeChat`, second revision) and the handler -/

/-- Go `strings.TrimSuffix`. -/
def strTrimSuffix (s suf : String) : String :=
  if strHasSuffix s suf then ⟨s.data.take (s.data.length - suf.data.length)⟩ else s

/-- Go `extractDisplayNames` (`analysis_utils.go`, lines 550–585). -/
def extractDisplayNames (users : List String) : List String :=
  users.foldr (fun user acc =>
    let trimmedUser := goTrimSpace user
    if trimmedUser = "" then acc
    else if trimmedUser.data.any Char.isAlpha then
      match goFields trimmedUser with
      | [] => acc
      | firstNameCandidate :: _ =>
          if firstNameCandidate.data.any Char.isAlpha then firstNameCandidate :: acc
          else acc
    else acc) []

/-- Go `deriveChatName` (second revision, `part_010` lines 367–386). -/
def deriveChatName (originalFilename : String) (users : List String) : String :=
  let displayNames := extractDisplayNames users
  let defaultName :=
    let d := strTrimSuffix originalFilename ".txt"
    if d = "" then "Bloop Analysis" else d
  match displayNames with
  | [] => defaultName
  | [a] => "Chat with " ++ a
  | [a, b] => a ++ " & " ++ b
  | a :: b :: rest => a ++ ", " ++ b ++ " & " ++ toString rest.length ++ " others"

/-- `maxUsersForPeopleBlock` (`analysis_ai.go`). -/
def maxUsersForPeopleBlock : Nat := 15

/-- The outcome the AI branch observes (`ctx.Err()` values and the worker
result tuple). -/
inductive AIError where
  | canceled
  | deadlineExceeded
  | failed (msg : String)
deriving DecidableEq, Repr

/-- `errors.Is(err, context.Canceled) || errors.Is(err, context.DeadlineExceeded)`. -/
def AIError.isContextError : AIError → Bool
  | .canceled => true
  | .deadlineExceeded => true
  | .failed _ => false

/-- Admission of the AI task to the bounded queue, seen from the
orchestrator: enqueued with a worker outcome, context cancelled before
enqueue, or enqueue timer elapsed. -/
inductive AIAdmission where
  | queued (outcome : Except AIError String)
  | contextDone (e : AIError)
  | timedOut
deriving Repr

/-- `AnalysisResult` (second revision). -/
structure AnalysisResult where
  chatName : String
  totalMessages : Nat
  stats : Option ChatStatistics
  aiAnalysis : Option String
  error : String
deriving Repr

/-- The error returns of `AnalyzeChat` (preprocessing failure wrapped, or
`ErrAIQueueTimeout`). -/
inductive AnalyzeError where
  | preprocessFailed (e : String)
  | aiQueueTimeout
deriving DecidableEq, Repr

/-- The Go zero value `&ChatStatistics{TotalMessages: raw}` built by the
stats-stub branch. -/
def emptyChatStatistics (raw : Nat) : ChatStatistics :=
  { totalMessages := raw, daysActive := 0, userMessageCount := [],
    mostActiveUsersPct := [], conversationStartersPct := [], mostIgnoredUsersPct := [],
    firstTextChampion := ⟨"", 0⟩, longestMonologue := ⟨"", 0⟩,
    commonWords := [], commonEmojis := [], averageResponseTimeMinutes := 0,
    peakHour := none, userMonthlyActivity := [],
    weekdayVsWeekendAvg := ⟨0, 0, 0, 0⟩, userInteractionMatrix := none }

/-- Go `AnalyzeChat` (second revision, `part_010` lines 212–365),
sequentialized: the statistics goroutine and the AI branch are joined
before the result is composed, so running them in order preserves the
observable data flow; the AI branch outcome is the `ai` parameter and is
consulted only when the branch runs.  `hourOrder` is threaded to the
statistics pass (see `calculateChatStatistics`). -/
def AnalyzeChat (stopwords sysPatterns : List String) (input originalFilename : String)
    (hourOrder : List (Nat × Nat)) (ai : AIAdmission) : Except AnalyzeError AnalysisResult :=
  match preprocessMessages stopwords sysPatterns input with
  | .error e => .error (.preprocessFailed e)
  | .ok (rawMessageCount, messagesData) =>
    if rawMessageCount = 0 then
      .ok { chatName := deriveChatName originalFilename [], totalMessages := 0,
            stats := none, aiAnalysis := none,
            error := "No messages found in the file after preprocessing." }
    else
      let uniqueUsers := sortStrings (messagesData.map (·.sender)).dedup
      let userCount := uniqueUsers.length
      let chatName := deriveChatName originalFilename uniqueUsers
      let dynamicConvoBreakMinutes := calculateDynamicConvoBreak messagesData 120 30 300
      let statsOutcome :=
        calculateChatStatistics stopwords messagesData dynamicConvoBreakMinutes hourOrder
      let shouldRunAI := 1 < userCount ∧ userCount ≤ maxUsersForPeopleBlock
      let aiStep : Except AnalyzeError (Option AIError × String) :=
        if shouldRunAI then
          match ai with
          | .timedOut => .error .aiQueueTimeout
          | .contextDone e => .ok (some e, "")
          | .queued (.ok r) => .ok (none, r)
          | .queued (.error e) => .ok (some e, "")
        else .ok (none, "")
      match aiStep with
      | .error e => .error e
      | .ok (aiErr, aiFinalResult) =>
        let stats0 : Option ChatStatistics :=
          match statsOutcome with
          | .ok st => some st
          | .error _ => none
        let stats1 :=
          match stats0 with
          | some st => some { st with totalMessages := rawMessageCount }
          | none =>
              if 0 < rawMessageCount then some (emptyChatStatistics rawMessageCount)
              else none
        let aiAnalysis := if aiFinalResult ≠ "" ∧ aiErr = none then some aiFinalResult else none
        let errorMessages :=
          (match statsOutcome with
           | .error e => ["Statistics failed: " ++ e]
           | .ok _ => []) ++
          (match aiErr with
           | some (.failed m) => ["AI analysis failed: " ++ m]
           | _ => [])
        let stats2 :=
          match statsOutcome with
          | .error _ => none
          | .ok _ => stats1
        .ok { chatName, totalMessages := rawMessageCount, stats := stats2, aiAnalysis,
              error := strJoin "; " errorMessages }

/-- The status decision of `analyzeHandler` (`handlers.go`, first
revision) once `AnalyzeChat` has returned: queue timeout → 429, other
`AnalyzeChat` error → 500, otherwise 200 (the analysis deadline is not
modelled: the sequential model returns with the context alive). -/
def analyzeHandlerStatus (res : Except AnalyzeError AnalysisResult) : Nat :=
  match res with
  | .error .aiQueueTimeout => 429
  | .error (.preprocessFailed _) => 500
  | .ok _ => 200


/-! ### Lemmas about the map operations -/

theorem lookupD_bump (m : List (String × Nat)) (k k1 : String) :
    lookupD (bump m k) k1 = lookupD m k1 + (if k = k1 then 1 else 0) := by
  induction m with
  | nil =>
      by_cases h : k = k1 <;> simp [bump, lookupD, h]
  | cons p rest ih =>
      obtain ⟨a, v⟩ := p
      by_cases hak : a = k
      · subst hak
        by_cases hak1 : a = k1 <;> simp [bump, lookupD, hak1]
      · by_cases hak1 : a = k1
        · subst hak1
          have h2 : ¬ k = a := fun h => hak h.symm
          simp [bump, lookupD, hak, h2]
        · simp [bump, lookupD, hak, hak1, ih]

theorem mem_alKeys_bump (m : List (String × Nat)) (k a : String) :
    a ∈ alKeys (bump m k) ↔ a ∈ alKeys m ∨ a = k := by
  induction m with
  | nil => simp [bump, alKeys]
  | cons p rest ih =>
      obtain ⟨b, v⟩ := p
      by_cases hbk : b = k
      · subst hbk; simp [bump, alKeys]; tauto
      · simp [bump, alKeys, hbk] at ih ⊢
        tauto

theorem nodup_alKeys_bump (m : List (String × Nat)) (k : String)
    (h : (alKeys m).Nodup) : (alKeys (bump m k)).Nodup := by
  induction m with
  | nil => simp [bump, alKeys]
  | cons p rest ih =>
      obtain ⟨b, v⟩ := p
      simp only [alKeys, List.map_cons, List.nodup_cons] at h
      by_cases hbk : b = k
      · subst hbk
        simpa [bump, alKeys] using h
      · simp only [bump, if_neg hbk, alKeys, List.map_cons, List.nodup_cons]
        constructor
        · intro hmem
          rcases (mem_alKeys_bump rest k b).mp hmem with h1 | h1
          · exact h.1 h1
          · exact hbk h1
        · exact ih h.2

theorem sumValues_bump (m : List (String × Nat)) (k : String) :
    ((bump m k).map (·.2)).sum = (m.map (·.2)).sum + 1 := by
  induction m with
  | nil => simp [bump]
  | cons p rest ih =>
      obtain ⟨b, v⟩ := p
      by_cases hbk : b = k <;> simp [bump, hbk, ih] <;> omega

theorem lookupDN_bumpN (m : List (Nat × Nat)) (k k1 : Nat) :
    lookupDN (bumpN m k) k1 = lookupDN m k1 + (if k = k1 then 1 else 0) := by
  induction m with
  | nil => by_cases h : k = k1 <;> simp [bumpN, lookupDN, h]
  | cons p rest ih =>
      obtain ⟨a, v⟩ := p
      by_cases hak : a = k
      · subst hak
        by_cases hak1 : a = k1 <;> simp [bumpN, lookupDN, hak1]
      · by_cases hak1 : a = k1
        · subst hak1
          have h2 : ¬ k = a := fun h => hak h.symm
          simp [bumpN, lookupDN, hak, h2]
        · simp [bumpN, lookupDN, hak, hak1, ih]

theorem mem_keys_bumpN (m : List (Nat × Nat)) (k a : Nat) :
    a ∈ (bumpN m k).map (·.1) ↔ a ∈ m.map (·.1) ∨ a = k := by
  induction m with
  | nil => simp [bumpN]
  | cons p rest ih =>
      obtain ⟨b, v⟩ := p
      by_cases hbk : b = k
      · subst hbk; simp [bumpN]; tauto
      · simp [bumpN, hbk] at ih ⊢
        tauto

theorem nodup_keys_bumpN (m : List (Nat × Nat)) (k : Nat)
    (h : (m.map (·.1)).Nodup) : ((bumpN m k).map (·.1)).Nodup := by
  induction m with
  | nil => simp [bumpN]
  | cons p rest ih =>
      obtain ⟨b, v⟩ := p
      simp only [List.map_cons, List.nodup_cons] at h
      by_cases hbk : b = k
      · subst hbk
        simpa [bumpN] using h
      · simp only [bumpN, if_neg hbk, List.map_cons, List.nodup_cons]
        constructor
        · intro hmem
          rcases (mem_keys_bumpN rest k b).mp hmem with h1 | h1
          · exact h.1 h1
          · exact hbk h1
        · exact ih h.2

theorem lookupDN_of_mem (m : List (Nat × Nat)) (h : (m.map (·.1)).Nodup)
    (a c : Nat) (hmem : (a, c) ∈ m) : lookupDN m a = c := by
  induction m with
  | nil => simp at hmem
  | cons p rest ih =>
      obtain ⟨b, v⟩ := p
      simp only [List.map_cons, List.nodup_cons] at h
      rcases List.mem_cons.mp hmem with h1 | h1
      · obtain ⟨hb, hv⟩ := Prod.mk.injEq .. ▸ h1
        simp_all [lookupDN]
      · have hba : b ≠ a := by
          intro hba
          subst hba
          exact h.1 (by simpa using List.mem_map_of_mem (·.1) h1)
        simp [lookupDN, hba, ih h.2 h1]

theorem lookup2_bump2 (m : List (String × List (String × Nat))) (a b x y : String) :
    lookup2 (bump2 m a b) x y = lookup2 m x y + (if a = x ∧ b = y then 1 else 0) := by
  induction m with
  | nil =>
      by_cases hax : a = x
      · subst hax
        by_cases hby : b = y <;> simp [bump2, lookup2, lookupD, hby]
      · simp [bump2, lookup2, lookupD, hax]
  | cons p rest ih =>
      obtain ⟨c, inner⟩ := p
      by_cases hca : c = a
      · subst hca
        by_cases hcx : c = x
        · subst hcx
          simp only [bump2, if_pos rfl, lookup2, if_pos rfl]
          rw [lookupD_bump]
          by_cases hby : b = y <;> simp [hby]
        · simp [bump2, lookup2, hcx]
      · by_cases hcx : c = x
        · subst hcx
          have h2 : ¬ a = c := fun h => hca h.symm
          simp [bump2, lookup2, hca, h2]
        · simp [bump2, lookup2, hca, hcx, ih]

/-! ### Lemmas about the sorts -/

theorem insertStr_eq_orderedInsert (x : String) (l : List String) :
    insertStr x l = List.orderedInsert strLeRel x l := by
  induction l with
  | nil => rfl
  | cons y ys ih => simp [insertStr, List.orderedInsert, strLeRel, ih]

theorem sortStrings_eq_insertionSort (l : List String) :
    sortStrings l = List.insertionSort strLeRel l := by
  induction l with
  | nil => rfl
  | cons y ys ih =>
      show insertStr y (sortStrings ys) = _
      rw [ih, insertStr_eq_orderedInsert]
      rfl

theorem sortStrings_perm (l : List String) : (sortStrings l).Perm l := by
  rw [sortStrings_eq_insertionSort]
  exact List.perm_insertionSort _ l

theorem sortStrings_sorted (l : List String) : (sortStrings l).Sorted strLeRel := by
  rw [sortStrings_eq_insertionSort]
  exact List.sorted_insertionSort _ l

theorem mem_sortStrings (l : List String) (a : String) : a ∈ sortStrings l ↔ a ∈ l :=
  (sortStrings_perm l).mem_iff

theorem nodup_sortStrings (l : List String) (h : l.Nodup) : (sortStrings l).Nodup :=
  ((sortStrings_perm l).nodup_iff).mpr h

/-- The ordering relation of the topic segmenter's stable sort. -/
def byTimestamp (a b : ParsedMessage) : Prop := a.timestamp ≤ b.timestamp

instance : DecidableRel byTimestamp := fun a b => inferInstanceAs (Decidable (a.timestamp ≤ b.timestamp))

instance : IsTotal ParsedMessage byTimestamp := ⟨fun x y => Int.le_total x.timestamp y.timestamp⟩

instance : IsTrans ParsedMessage byTimestamp := ⟨fun _ _ _ => Int.le_trans⟩

theorem insertByTime_eq_orderedInsert (x : ParsedMessage) (l : List ParsedMessage) :
    insertByTime x l = List.orderedInsert byTimestamp x l := by
  induction l with
  | nil => rfl
  | cons y ys ih => simp [insertByTime, List.orderedInsert, byTimestamp, ih]

theorem stableSortByTimestamp_eq_insertionSort (l : List ParsedMessage) :
    stableSortByTimestamp l = List.insertionSort byTimestamp l := by
  induction l with
  | nil => rfl
  | cons y ys ih =>
      show insertByTime y (stableSortByTimestamp ys) = _
      rw [ih, insertByTime_eq_orderedInsert]
      rfl

theorem stableSortByTimestamp_perm (l : List ParsedMessage) :
    (stableSortByTimestamp l).Perm l := by
  rw [stableSortByTimestamp_eq_insertionSort]
  exact List.perm_insertionSort _ l

theorem stableSortByTimestamp_sorted (l : List ParsedMessage) :
    (stableSortByTimestamp l).Sorted byTimestamp := by
  rw [stableSortByTimestamp_eq_insertionSort]
  exact List.sorted_insertionSort _ l

/-! ### Projection lemmas: each component of the single-pass state evolves
by a fold of its own step over the stream -/

theorem statsLoop_userMessageCount (c : Int) (sw : List String) (s : StatsState)
    (msgs : List ParsedMessage) :
    (statsLoop c sw s msgs).userMessageCount =
      msgs.foldl (fun m msg => bump m msg.sender) s.userMessageCount := by
  induction msgs generalizing s with
  | nil => rfl
  | cons msg rest ih =>
      rw [statsLoop, ih]
      rfl

theorem statsLoop_hourly (c : Int) (sw : List String) (s : StatsState)
    (msgs : List ParsedMessage) :
    (statsLoop c sw s msgs).hourlyMessageCount =
      msgs.foldl (fun m msg => bumpN m (goHour msg.timestamp)) s.hourlyMessageCount := by
  induction msgs generalizing s with
  | nil => rfl
  | cons msg rest ih =>
      rw [statsLoop, ih]
      rfl

theorem statsLoop_monthly (c : Int) (sw : List String) (s : StatsState)
    (msgs : List ParsedMessage) :
    (statsLoop c sw s msgs).monthlyActivityByUser =
      msgs.foldl (fun m msg => bump2 m msg.sender (goFormatMonth msg.timestamp))
        s.monthlyActivityByUser := by
  induction msgs generalizing s with
  | nil => rfl
  | cons msg rest ih =>
      rw [statsLoop, ih]
      rfl

theorem statsLoop_allMonths (c : Int) (sw : List String) (s : StatsState)
    (msgs : List ParsedMessage) :
    (statsLoop c sw s msgs).allMonths =
      msgs.foldl (fun am msg => insertNew am (goFormatMonth msg.timestamp)) s.allMonths := by
  induction msgs generalizing s with
  | nil => rfl
  | cons msg rest ih =>
      rw [statsLoop, ih]
      rfl

/-- The interaction-matrix component of the pass, as its own loop. -/
def matrixLoop (c : Int) : Bool → String → Int → List (String × List (String × Nat)) →
    List ParsedMessage → List (String × List (String × Nat))
  | _, _, _, m, [] => m
  | isFirst, ls, lt, m, msg :: rest =>
      matrixLoop c false msg.sender msg.timestamp (stepInteraction c isFirst ls lt m msg) rest

theorem statsLoop_matrix (c : Int) (sw : List String) (s : StatsState)
    (msgs : List ParsedMessage) :
    (statsLoop c sw s msgs).interactionMatrix =
      matrixLoop c s.isFirst s.lastSender s.lastTimestamp s.interactionMatrix msgs := by
  induction msgs generalizing s with
  | nil => rfl
  | cons msg rest ih =>
      rw [statsLoop, ih]
      rfl

/-- The first-text component of the pass, as its own loop. -/
def ftLoop (ft : List (String × Nat)) (lastDateStr : String) :
    List ParsedMessage → List (String × Nat) × String
  | [] => (ft, lastDateStr)
  | msg :: rest =>
      ftLoop (stepFirstTexts ft lastDateStr msg).1 (stepFirstTexts ft lastDateStr msg).2 rest

theorem statsLoop_firstTexts (c : Int) (sw : List String) (s : StatsState)
    (msgs : List ParsedMessage) :
    (statsLoop c sw s msgs).userFirstTexts = (ftLoop s.userFirstTexts s.lastDateStr msgs).1 := by
  induction msgs generalizing s with
  | nil => rfl
  | cons msg rest ih =>
      rw [statsLoop, ih]
      rfl

/-! ### Counting lemmas for the folds -/

/-- Number of accepted records of sender `u` (specification vocabulary). -/
def senderCount (msgs : List ParsedMessage) (u : String) : Nat :=
  msgs.countP (fun m => m.sender == u)

/-- Number of accepted records in hour `h` (specification vocabulary). -/
def hourCount (msgs : List ParsedMessage) (h : Nat) : Nat :=
  msgs.countP (fun m => goHour m.timestamp == h)

/-- Number of accepted records of sender `u` in calendar month `mo`
(specification vocabulary). -/
def monthUserCount (msgs : List ParsedMessage) (u mo : String) : Nat :=
  msgs.countP (fun m => m.sender == u && goFormatMonth m.timestamp == mo)

theorem mem_insertNew (s : List String) (x a : String) :
    a ∈ insertNew s x ↔ a ∈ s ∨ a = x := by
  by_cases h : x ∈ s
  · simp only [insertNew, if_pos h]
    constructor
    · exact Or.inl
    · rintro (h1 | rfl) <;> [exact h1; exact h]
  · simp [insertNew, if_neg h]

theorem nodup_insertNew (s : List String) (x : String) (h : s.Nodup) :
    (insertNew s x).Nodup := by
  by_cases hx : x ∈ s
  · simpa [insertNew, hx] using h
  · rw [insertNew, if_neg hx, List.nodup_append]
    refine ⟨h, List.nodup_singleton x, ?_⟩
    intro a ha hax
    simp only [List.mem_singleton] at hax
    exact hx (hax ▸ ha)

theorem monthsFold_mem (msgs : List ParsedMessage) (init : List String) (a : String) :
    a ∈ msgs.foldl (fun am msg => insertNew am (goFormatMonth msg.timestamp)) init ↔
      a ∈ init ∨ ∃ m ∈ msgs, goFormatMonth m.timestamp = a := by
  induction msgs generalizing init with
  | nil => simp
  | cons msg rest ih =>
      simp only [List.foldl_cons, ih, mem_insertNew, List.mem_cons]
      constructor
      · rintro ((h | rfl) | ⟨m, hm, rfl⟩)
        · exact Or.inl h
        · exact Or.inr ⟨msg, Or.inl rfl, rfl⟩
        · exact Or.inr ⟨m, Or.inr hm, rfl⟩
      · rintro (h | ⟨m, hm | hm, rfl⟩)
        · exact Or.inl (Or.inl h)
        · exact Or.inl (Or.inr (by rw [hm]))
        · exact Or.inr ⟨m, hm, rfl⟩

theorem monthsFold_nodup (msgs : List ParsedMessage) (init : List String) (h : init.Nodup) :
    (msgs.foldl (fun am msg => insertNew am (goFormatMonth msg.timestamp)) init).Nodup := by
  induction msgs generalizing init with
  | nil => exact h
  | cons msg rest ih => exact ih _ (nodup_insertNew _ _ h)

theorem hourlyFold_lookup (msgs : List ParsedMessage) (init : List (Nat × Nat)) (h2 : Nat) :
    lookupDN (msgs.foldl (fun m msg => bumpN m (goHour msg.timestamp)) init) h2 =
      lookupDN init h2 + hourCount msgs h2 := by
  induction msgs generalizing init with
  | nil => simp [hourCount]
  | cons msg rest ih =>
      simp only [List.foldl_cons, ih, lookupDN_bumpN, hourCount, List.countP_cons]
      by_cases h : goHour msg.timestamp = h2 <;> simp [h, hourCount] <;> try omega

theorem hourlyFold_keys (msgs : List ParsedMessage) (init : List (Nat × Nat)) (k : Nat)
    (hk : k ∈ (msgs.foldl (fun m msg => bumpN m (goHour msg.timestamp)) init).map (·.1)) :
    k ∈ init.map (·.1) ∨ ∃ m ∈ msgs, goHour m.timestamp = k := by
  induction msgs generalizing init with
  | nil => exact Or.inl hk
  | cons msg rest ih =>
      rcases ih _ hk with h | ⟨m, hm, rfl⟩
      · rcases (mem_keys_bumpN init (goHour msg.timestamp) k).mp h with h1 | rfl
        · exact Or.inl h1
        · exact Or.inr ⟨msg, List.mem_cons_self .., rfl⟩
      · exact Or.inr ⟨m, List.mem_cons_of_mem _ hm, rfl⟩

theorem hourlyFold_nodup (msgs : List ParsedMessage) (init : List (Nat × Nat))
    (h : (init.map (·.1)).Nodup) :
    ((msgs.foldl (fun m msg => bumpN m (goHour msg.timestamp)) init).map (·.1)).Nodup := by
  induction msgs generalizing init with
  | nil => exact h
  | cons msg rest ih => exact ih _ (nodup_keys_bumpN _ _ h)

theorem lookupDN_of_not_mem (m : List (Nat × Nat)) (k : Nat) (h : k ∉ m.map (·.1)) :
    lookupDN m k = 0 := by
  induction m with
  | nil => rfl
  | cons p rest ih =>
      simp only [List.map_cons, List.mem_cons] at h
      push_neg at h
      obtain ⟨b, v⟩ := p
      have : b ≠ k := fun hbk => h.1 hbk.symm
      simp [lookupDN, this, ih h.2]

theorem monthlyFold_lookup (msgs : List ParsedMessage)
    (init : List (String × List (String × Nat))) (u mo : String) :
    lookup2 (msgs.foldl (fun m msg => bump2 m msg.sender (goFormatMonth msg.timestamp)) init)
        u mo = lookup2 init u mo + monthUserCount msgs u mo := by
  induction msgs generalizing init with
  | nil => simp [monthUserCount]
  | cons msg rest ih =>
      simp only [List.foldl_cons, ih, lookup2_bump2, monthUserCount, List.countP_cons]
      by_cases h1 : msg.sender = u
      · by_cases h2 : goFormatMonth msg.timestamp = mo <;>
          simp [h1, h2, monthUserCount] <;> try omega
      · simp [h1, monthUserCount]

theorem umcFold_keys_mem (msgs : List ParsedMessage) (init : List (String × Nat)) (u : String) :
    u ∈ alKeys (msgs.foldl (fun m msg => bump m msg.sender) init) ↔
      u ∈ alKeys init ∨ ∃ m ∈ msgs, m.sender = u := by
  induction msgs generalizing init with
  | nil => simp
  | cons msg rest ih =>
      simp only [List.foldl_cons, ih, mem_alKeys_bump, List.mem_cons]
      constructor
      · rintro ((h | rfl) | ⟨m, hm, rfl⟩)
        · exact Or.inl h
        · exact Or.inr ⟨msg, Or.inl rfl, rfl⟩
        · exact Or.inr ⟨m, Or.inr hm, rfl⟩
      · rintro (h | ⟨m, hm | hm, rfl⟩)
        · exact Or.inl (Or.inl h)
        · exact Or.inl (Or.inr (by rw [hm]))
        · exact Or.inr ⟨m, hm, rfl⟩

theorem umcFold_nodup (msgs : List ParsedMessage) (init : List (String × Nat))
    (h : (alKeys init).Nodup) :
    (alKeys (msgs.foldl (fun m msg => bump m msg.sender) init)).Nodup := by
  induction msgs generalizing init with
  | nil => exact h
  | cons msg rest ih => exact ih _ (nodup_alKeys_bump _ _ h)

/-! ### The peak-hour scan returns a maximizer -/

theorem peakFold_le (l : List (Nat × Nat)) (acc : Int × Option Nat) :
    acc.1 ≤ (l.foldl (fun (acc : Int × Option Nat) p =>
        if acc.1 < (p.2 : Int) then ((p.2 : Int), some p.1) else acc) acc).1 ∧
    ∀ q ∈ l, (q.2 : Int) ≤ (l.foldl (fun (acc : Int × Option Nat) p =>
        if acc.1 < (p.2 : Int) then ((p.2 : Int), some p.1) else acc) acc).1 := by
  induction l generalizing acc with
  | nil => simp
  | cons p rest ih =>
      simp only [List.foldl_cons, List.mem_cons]
      by_cases h : acc.1 < (p.2 : Int)
      · rw [if_pos h]
        refine ⟨le_trans (le_of_lt h) (ih _).1, ?_⟩
        rintro q (rfl | hq)
        · exact (ih _).1
        · exact (ih _).2 q hq
      · rw [if_neg h]
        refine ⟨(ih _).1, ?_⟩
        rintro q (rfl | hq)
        · exact le_trans (le_of_not_lt h) (ih _).1
        · exact (ih _).2 q hq

theorem peakFold_cases (l : List (Nat × Nat)) (acc : Int × Option Nat) :
    (l.foldl (fun (acc : Int × Option Nat) p =>
        if acc.1 < (p.2 : Int) then ((p.2 : Int), some p.1) else acc) acc) = acc ∨
    ∃ p ∈ l, (l.foldl (fun (acc : Int × Option Nat) p =>
        if acc.1 < (p.2 : Int) then ((p.2 : Int), some p.1) else acc) acc) =
          ((p.2 : Int), some p.1) := by
  induction l generalizing acc with
  | nil => exact Or.inl rfl
  | cons p rest ih =>
      simp only [List.foldl_cons, List.mem_cons]
      by_cases h : acc.1 < (p.2 : Int)
      · rw [if_pos h]
        rcases ih ((p.2 : Int), some p.1) with h1 | ⟨q, hq, h1⟩
        · exact Or.inr ⟨p, Or.inl rfl, h1⟩
        · exact Or.inr ⟨q, Or.inr hq, h1⟩
      · rw [if_neg h]
        rcases ih acc with h1 | ⟨q, hq, h1⟩
        · exact Or.inl h1
        · exact Or.inr ⟨q, Or.inr hq, h1⟩

theorem peakHourFrom_spec (entries : List (Nat × Nat)) (hne : entries ≠ []) :
    ∃ p ∈ entries, peakHourFrom entries = some p.1 ∧ ∀ q ∈ entries, q.2 ≤ p.2 := by
  obtain ⟨hd, tl, rfl⟩ := List.exists_cons_of_ne_nil hne
  rcases peakFold_cases (hd :: tl) (-1, none) with h1 | ⟨p, hp, h1⟩
  · exfalso
    have hle := (peakFold_le (hd :: tl) (-1, none)).2 hd (List.mem_cons_self ..)
    rw [h1] at hle
    omega
  · refine ⟨p, hp, ?_, ?_⟩
    · unfold peakHourFrom
      rw [h1]
    · intro q hq
      have hle := (peakFold_le (hd :: tl) (-1, none)).2 q hq
      rw [h1] at hle
      simp only at hle
      exact_mod_cast hle

/-! ### Field extraction for a successful statistics computation -/

theorem calcStats_ok_fields (sw : List String) (msgs : List ParsedMessage) (bm : Nat)
    (ho : List (Nat × Nat)) (stats : ChatStatistics) (hne : msgs ≠ [])
    (hok : calculateChatStatistics sw msgs bm ho = .ok stats) :
    stats.peakHour = peakHourFrom ho ∧
    stats.userMessageCount = (statsLoop ((bm : Int) * 60) sw {} msgs).userMessageCount ∧
    stats.mostActiveUsersPct = stats.userMessageCount.map
      (fun p => (p.1, roundFloat ((p.2 : Rat) * 100 / (msgs.length : Rat)) 2)) ∧
    stats.userMonthlyActivity =
      getMonthlyActivity (statsLoop ((bm : Int) * 60) sw {} msgs).monthlyActivityByUser
        (statsLoop ((bm : Int) * 60) sw {} msgs).allMonths
        (alKeys (statsLoop ((bm : Int) * 60) sw {} msgs).userMessageCount) ∧
    stats.userInteractionMatrix =
      formatInteractionMatrix (statsLoop ((bm : Int) * 60) sw {} msgs).interactionMatrix
        (alKeys (statsLoop ((bm : Int) * 60) sw {} msgs).userMessageCount) ∧
    stats.firstTextChampion =
      firstTextChampionOf (statsLoop ((bm : Int) * 60) sw {} msgs).userFirstTexts ∧
    stats.daysActive =
      (if (msgs.head hne).timestamp ≠ goZeroTimeSec ∧
          (msgs.getLast hne).timestamp ≠ goZeroTimeSec then
        Int.tdiv (goSubNs (msgs.getLast hne).timestamp (msgs.head hne).timestamp)
          86400000000000 + 1
      else 0) ∧
    (∀ u, u ∈ stats.conversationStartersPct.map (·.1) →
      u ∈ alKeys (statsLoop ((bm : Int) * 60) sw {} msgs).userStartsConvo) ∧
    (∀ u, u ∈ stats.mostIgnoredUsersPct.map (·.1) →
      u ∈ alKeys (statsLoop ((bm : Int) * 60) sw {} msgs).userIgnoredCount) := by
  match msgs, hne with
  | m :: rest, _ =>
    rw [calculateChatStatistics, dif_neg (List.cons_ne_nil m rest)] at hok
    have hstats := (Except.ok.injEq ..).mp hok
    subst hstats
    refine ⟨rfl, rfl, rfl, rfl, rfl, rfl, rfl, ?_, ?_⟩
    · intro u hu
      simp only [List.mem_map] at hu
      obtain ⟨p, hp, rfl⟩ := hu
      split at hp
      · simp only [List.mem_map] at hp
        obtain ⟨q, hq, rfl⟩ := hp
        exact List.mem_map_of_mem (·.1) hq
      · simp at hp
    · intro u hu
      simp only [List.mem_map] at hu
      obtain ⟨p, hp, rfl⟩ := hu
      split at hp
      · simp only [List.mem_map] at hp
        obtain ⟨q, hq, rfl⟩ := hp
        exact List.mem_map_of_mem (·.1) hq
      · simp at hp

theorem goHour_lt_24 (t : Int) : goHour t < 24 := by
  unfold goHour
  have h1 : 0 ≤ t.emod 86400 := Int.emod_nonneg t (by norm_num)
  have h2 : t.emod 86400 < 86400 := Int.emod_lt_of_pos t (by norm_num)
  omega

/-- C7, amended: on every non-empty accepted input, and for every order in
which the peak-hour loop may visit the entries of the hourly map, the
emitted `peak_hour` is an hour in `0..23` whose message count is maximal.
(Which hour wins among ties depends on the unspecified Go map iteration
order: see the counterexample.) -/
theorem c7_peak_hour_is_maximizer (sw : List String) (msgs : List ParsedMessage) (bm : Nat)
    (ho : List (Nat × Nat)) (stats : ChatStatistics) (hne : msgs ≠ [])
    (hperm : ho.Perm ((statsLoop ((bm : Int) * 60) sw {} msgs).hourlyMessageCount))
    (hok : calculateChatStatistics sw msgs bm ho = .ok stats) :
    ∃ h, stats.peakHour = some h ∧ h < 24 ∧
      ∀ h2, hourCount msgs h2 ≤ hourCount msgs h := by
  obtain ⟨hpeak, -, -, -, -, -, -, -, -⟩ := calcStats_ok_fields sw msgs bm ho stats hne hok
  have hstate : (statsLoop ((bm : Int) * 60) sw {} msgs).hourlyMessageCount =
      msgs.foldl (fun m msg => bumpN m (goHour msg.timestamp)) [] := statsLoop_hourly ..
  have hlookup : ∀ h2, lookupDN ((statsLoop ((bm : Int) * 60) sw {} msgs).hourlyMessageCount) h2 =
      hourCount msgs h2 := by
    intro h2
    rw [hstate]
    simpa [lookupDN] using hourlyFold_lookup msgs [] h2
  obtain ⟨m0, rest, rfl⟩ := List.exists_cons_of_ne_nil hne
  have hcount0 : 0 < hourCount (m0 :: rest) (goHour m0.timestamp) := by
    simp [hourCount, List.countP_cons]
  have hneq : ho ≠ [] := by
    intro h0
    rw [h0] at hperm
    have hnil := hperm.symm.eq_nil
    rw [← hlookup (goHour m0.timestamp), hnil] at hcount0
    simp [lookupDN] at hcount0
  obtain ⟨p, hp, hpk, hmax⟩ := peakHourFrom_spec ho hneq
  have hpstate : p ∈ (statsLoop ((bm : Int) * 60) sw {} (m0 :: rest)).hourlyMessageCount :=
    hperm.subset hp
  have hnodup :
      (((statsLoop ((bm : Int) * 60) sw {} (m0 :: rest)).hourlyMessageCount).map (·.1)).Nodup := by
    rw [hstate]
    exact hourlyFold_nodup _ [] (by simp)
  have hlp : hourCount (m0 :: rest) p.1 = p.2 := by
    rw [← hlookup p.1]
    exact lookupDN_of_mem _ hnodup p.1 p.2 hpstate
  refine ⟨p.1, by rw [hpeak, hpk], ?_, ?_⟩
  · have hmemk : p.1 ∈ ((statsLoop ((bm : Int) * 60) sw {} (m0 :: rest)).hourlyMessageCount).map
        (·.1) := List.mem_map_of_mem (·.1) hpstate
    rw [hstate] at hmemk
    rcases hourlyFold_keys _ [] p.1 hmemk with h | ⟨mm, _, heq⟩
    · simp at h
    · rw [← heq]
      exact goHour_lt_24 _
  · intro h2
    rw [hlp]
    by_cases hmem : h2 ∈ ((statsLoop ((bm : Int) * 60) sw {} (m0 :: rest)).hourlyMessageCount).map
        (·.1)
    · obtain ⟨q, hq, hq1⟩ := List.mem_map.mp hmem
      have hlq : hourCount (m0 :: rest) h2 = q.2 := by
        rw [← hlookup h2, ← hq1]
        exact lookupDN_of_mem _ hnodup q.1 q.2 hq
      rw [hlq]
      exact hmax q (hperm.mem_iff.mpr hq)
    · have hz : hourCount (m0 :: rest) h2 = 0 := by
        rw [← hlookup h2]
        exact lookupDN_of_not_mem _ _ hmem
      rw [hz]
      exact Nat.zero_le _

/-! ### Concrete inputs for the claim instances -/

/-- Seconds since the Unix epoch of a civil UTC date-time (input helper). -/
def mkInstant (y : Int) (mo d hh mi : Nat) : Int :=
  daysFromCivil y mo d * 86400 + (hh * 3600 + mi * 60 : Nat)

/-- Two messages of one sender, in hours 10 and 11 of the same day — a
peak-hour tie. -/
def tieMsgs : List ParsedMessage :=
  [⟨mkInstant 2024 1 5 10 0, "5/1/24", "A", "hello there", "hello there"⟩,
   ⟨mkInstant 2024 1 5 11 0, "5/1/24", "A", "more words here", "more words here"⟩]

/-- C7, counterexample to the tie-break: the hours 10 and 11 hold one
message each, `[(11,1),(10,1)]` is a permutation of the hourly-map entries
— hence an admissible Go map iteration order — and under it the emitted
peak hour is 11, not the lowest tying hour 10. -/
theorem c7_counterexample_tie_not_lowest :
    List.Perm [(11, 1), (10, 1)]
      ((statsLoop (((120 : Nat) : Int) * 60) [] {} tieMsgs).hourlyMessageCount) ∧
    (calculateChatStatistics [] tieMsgs 120 [(11, 1), (10, 1)]).toOption.map (·.peakHour) =
      some (some 11) ∧
    hourCount tieMsgs 10 = hourCount tieMsgs 11 ∧ (10 : Nat) < 11 := by
  refine ⟨by decide, by decide, by decide, by decide⟩

/-- Witness for `c7_peak_hour_is_maximizer`: its hypotheses hold at
`tieMsgs` with the iteration order `[(11,1),(10,1)]`. -/
theorem c7_peak_hour_is_maximizer_witness :
    ∃ stats, calculateChatStatistics [] tieMsgs 120 [(11, 1), (10, 1)] = .ok stats ∧
      ∃ h, stats.peakHour = some h ∧ h < 24 ∧
        ∀ h2, hourCount tieMsgs h2 ≤ hourCount tieMsgs h := by
  have hsome : (calculateChatStatistics [] tieMsgs 120 [(11, 1), (10, 1)]).toOption.isSome := by
    decide
  cases hcase : calculateChatStatistics [] tieMsgs 120 [(11, 1), (10, 1)] with
  | error e =>
      rw [hcase] at hsome
      simp [Except.toOption] at hsome
  | ok stats =>
      exact ⟨stats, rfl, c7_peak_hour_is_maximizer [] tieMsgs 120 [(11, 1), (10, 1)] stats
        (by decide) (by decide) hcase⟩

/-! ### C2: the percentile interpolation -/

/-- Modelled from the spec: "Percentile is computed by linear
interpolation on the sorted sample with the `(p/100)(n+1)` rank
convention", i.e. with `k = floor(rank)` and `d = rank − k`, the result is
`sample[k−1] + d·(sample[k] − sample[k−1])` (for the interior case
`0 < k < n`).  This is the comparison definition for claim C2. -/
def percentileSpecFormula (sortedData : List Rat) (p : Rat) : Rat :=
  let n := sortedData.length
  let rank := p / 100 * ((n : Rat) + 1)
  let k := (ratTrunc rank).toNat
  let d := rank - (k : Rat)
  sortedData.getD (k - 1) 0 + d * (sortedData.getD k 0 - sortedData.getD (k - 1) 0)

/-- C2: on the sorted sample `[1,2,3,4]` with `p = 50` the rank is `2.5`,
so `k = 2`, `d = 0.5`; the claimed interpolation gives `2.5`, but
`calculatePercentile` returns `2` — its final line multiplies `d` by
`valK - valK`, which is identically zero, so the interior case always
returns `sortedData[k-1]`. -/
theorem c2_percentile_returns_lower_sample :
    calculatePercentile [1, 2, 3, 4] 50 = 2 ∧
    percentileSpecFormula [1, 2, 3, 4] 50 = 5 / 2 ∧
    calculatePercentile [1, 2, 3, 4] 50 ≠ percentileSpecFormula [1, 2, 3, 4] 50 := by
  have htd : Int.tdiv 5 2 = 2 := by decide
  have htn : Int.toNat 2 = 2 := rfl
  have h1 : calculatePercentile [1, 2, 3, 4] 50 = 2 := by
    unfold calculatePercentile
    norm_num [ratTrunc, htd, htn]
  have h2 : percentileSpecFormula [1, 2, 3, 4] 50 = 5 / 2 := by
    unfold percentileSpecFormula
    norm_num [ratTrunc, htd, htn]
  refine ⟨h1, h2, ?_⟩
  rw [h1, h2]
  norm_num

/-! ### C5: the empty-cleaned-message drop -/

/-- C5: the line `[2/3/24, 10:00] A: hi` matches the timestamp header, is
not a system/media message, and its timestamp parses — but `hi` is shorter
than 3 characters, so the cleaned message is empty and `preprocessMessages`
emits no record at all: the raw count is 1 and the accepted list is empty
(the spec expects an accepted record and statistics for sender A). -/
theorem c5_empty_cleaned_message_not_emitted :
    (timestampMatch "[2/3/24, 10:00] A: hi").isSome = true ∧
    isSystemOrMedia [] "hi" = false ∧
    cleanTextRemoveStopwords [] "hi" = "" ∧
    (preprocessMessages [] [] "[2/3/24, 10:00] A: hi").toOption = some (1, []) := by
  refine ⟨by decide, by decide, by decide, by decide⟩

/-! ### C9: uploads whose lines are all filtered -/

/-- C9, amended: when the parser counts raw lines but accepts no record
(e.g. an upload whose non-blank lines are all system/media messages), the
request is answered with HTTP 200 and a populated error string, but
`total_messages` is the raw non-blank line count, not 0 — the `0` early
return fires only when `rawMessageCount == 0`. -/
theorem c9_all_system_lines_returns_raw_count (sw sp : List String) (input filename : String)
    (ho : List (Nat × Nat)) (ai : AIAdmission) (raw : Nat)
    (hpre : preprocessMessages sw sp input = .ok (raw, []))
    (hraw : 0 < raw) :
    ∃ res, AnalyzeChat sw sp input filename ho ai = .ok res ∧
      analyzeHandlerStatus (AnalyzeChat sw sp input filename ho ai) = 200 ∧
      res.totalMessages = raw ∧
      res.error = "Statistics failed: cannot calculate statistics on empty message list" := by
  have hzero : ¬ raw = 0 := by omega
  have hstats : ∀ bm, calculateChatStatistics sw [] bm ho =
      .error "cannot calculate statistics on empty message list" := fun bm => rfl
  have key : AnalyzeChat sw sp input filename ho ai = .ok
      { chatName := deriveChatName filename [],
        totalMessages := raw, stats := none, aiAnalysis := none,
        error := "Statistics failed: cannot calculate statistics on empty message list" } := by
    unfold AnalyzeChat
    rw [hpre]
    simp only [hzero, if_false, List.map_nil, List.dedup_nil, hstats]
    rfl
  rw [key]
  exact ⟨_, rfl, rfl, rfl, rfl⟩

/-- C9, counterexample: the one-line upload `2/3/24, 10:00 - A: omitted
media` consists of a single media line (raw count 1, nothing accepted);
the service answers 200 with `total_messages = 1` — the claim expects 0. -/
theorem c9_counterexample_media_line :
    ((AnalyzeChat [] [] "2/3/24, 10:00 - A: omitted media" "chat.txt" []
        (.queued (.ok ""))).toOption.map fun res => (res.totalMessages, res.error)) =
      some (1, "Statistics failed: cannot calculate statistics on empty message list") ∧
    analyzeHandlerStatus (AnalyzeChat [] [] "2/3/24, 10:00 - A: omitted media" "chat.txt" []
        (.queued (.ok ""))) = 200 := by
  refine ⟨by decide, by decide⟩

/-- Witness for `c9_all_system_lines_returns_raw_count` at the concrete
media-line upload (with an AI admission that would time out, showing the
AI branch is not consulted). -/
theorem c9_all_system_lines_returns_raw_count_witness :
    ∃ res, AnalyzeChat [] [] "2/3/24, 10:00 - A: omitted media" "chat.txt" [] .timedOut =
        .ok res ∧
      analyzeHandlerStatus (AnalyzeChat [] [] "2/3/24, 10:00 - A: omitted media" "chat.txt" []
        .timedOut) = 200 ∧
      res.totalMessages = 1 ∧
      res.error = "Statistics failed: cannot calculate statistics on empty message list" :=
  c9_all_system_lines_returns_raw_count [] [] "2/3/24, 10:00 - A: omitted media" "chat.txt"
    [] .timedOut 1 (by rfl) (by decide)

/-! ### C8: the topic segmenter sorts the caller's slice in place -/

theorem groupMessagesByTopic_fst (data : List ParsedMessage) (gapHours : Rat) :
    (groupMessagesByTopic data gapHours).1 =
      if data = [] then data else stableSortByTimestamp data := by
  unfold groupMessagesByTopic
  by_cases h : data = []
  · simp [h]
  · rw [if_neg h, if_neg h]
    cases hs : stableSortByTimestamp data with
    | nil => simp [hs]
    | cons a l => simp [hs]

/-- C8, amended: `groupMessagesByTopic` sorts the caller's backing array
in place — after the call the caller's sequence is the stable
timestamp-sort of its former content: a permutation of it, sorted by
timestamp, and unchanged only when it was already sorted. -/
theorem c8_caller_slice_sorted_in_place (data : List ParsedMessage) (gapHours : Rat) :
    ((groupMessagesByTopic data gapHours).1).Perm data ∧
    ((groupMessagesByTopic data gapHours).1).Sorted byTimestamp := by
  rw [groupMessagesByTopic_fst]
  by_cases h : data = []
  · subst h
    simp
  · rw [if_neg h]
    exact ⟨stableSortByTimestamp_perm data, stableSortByTimestamp_sorted data⟩

/-- An out-of-order two-record sequence for the C8 counterexample. -/
def outOfOrderMsgs : List ParsedMessage :=
  [⟨200, "d", "B", "gamma delta words", "gamma delta words"⟩,
   ⟨100, "d", "A", "alpha beta words", "alpha beta words"⟩]

/-- C8, counterexample: on an out-of-order input the caller's sequence is
changed by the call (the source sorts `data` itself, not a copy). -/
theorem c8_counterexample_caller_mutated :
    (groupMessagesByTopic outOfOrderMsgs 1).1 ≠ outOfOrderMsgs ∧
    (groupMessagesByTopic outOfOrderMsgs 1).1 =
      [⟨100, "d", "A", "alpha beta words", "alpha beta words"⟩,
       ⟨200, "d", "B", "gamma delta words", "gamma delta words"⟩] := by
  refine ⟨by decide, by decide⟩

/-! ### C10: the European-style tie-break -/

theorem eliminateLayouts_subset (samples : List String) (cands : List String) (l : String)
    (hl : l ∈ eliminateLayouts samples cands) : l ∈ cands := by
  induction samples generalizing cands with
  | nil => exact hl
  | cons s rest ih =>
      have hl2 := ih _ hl
      simp only at hl2
      cases hmatch : timestampMatch s with
      | none => rwa [hmatch] at hl2
      | some g =>
          rw [hmatch] at hl2
          exact List.mem_of_mem_filter hl2

theorem euro_layouts_not_us :
    ∀ l ∈ timestampParseLayouts, isEuropeanLayout l = true → isUSLayout l = false := by
  decide

/-- C10, confirmed: whenever the elimination pass leaves more than one
surviving layout and at least one survivor is European-style (day-first),
`sniffTimestampLayouts` returns exactly the European-style survivors, and
none of the returned layouts is US-style (month-first). -/
theorem c10_european_layouts_win (lines : List String) (maxLines : Nat)
    (hsamp : sniffSampleLines lines maxLines ≠ [])
    (hsurv : 1 <
      (eliminateLayouts (sniffSampleLines lines maxLines) timestampParseLayouts).length)
    (heuro : ∃ l ∈ eliminateLayouts (sniffSampleLines lines maxLines) timestampParseLayouts,
      isEuropeanLayout l = true) :
    sniffTimestampLayouts lines timestampParseLayouts maxLines =
      .ok ((eliminateLayouts (sniffSampleLines lines maxLines) timestampParseLayouts).filter
        isEuropeanLayout) ∧
    ∀ l ∈ (eliminateLayouts (sniffSampleLines lines maxLines) timestampParseLayouts).filter
        isEuropeanLayout, isEuropeanLayout l = true ∧ isUSLayout l = false := by
  have hsne : eliminateLayouts (sniffSampleLines lines maxLines) timestampParseLayouts ≠ [] := by
    intro h0
    rw [h0] at hsurv
    simp at hsurv
  have heurne : (eliminateLayouts (sniffSampleLines lines maxLines)
      timestampParseLayouts).filter isEuropeanLayout ≠ [] := by
    obtain ⟨l, hl, he⟩ := heuro
    exact List.ne_nil_of_mem (List.mem_filter.mpr ⟨hl, he⟩)
  constructor
  · unfold sniffTimestampLayouts
    rw [if_neg hsamp, if_neg hsne, if_pos hsurv, if_pos heurne]
  · intro l hl
    have hmem := List.mem_filter.mp hl
    exact ⟨hmem.2, euro_layouts_not_us l (eliminateLayouts_subset _ _ _ hmem.1) hmem.2⟩

/-- Witness for `c10_european_layouts_win`: the single line
`03/04/24, 10:00 - A: hello` leaves exactly the two European 24-hour
layouts `2/1/06 15:04` and `02/01/06 15:04` alive, and the sniffer returns
both, with no US-style layout. -/
theorem c10_european_layouts_win_witness :
    sniffTimestampLayouts ["03/04/24, 10:00 - A: hello"] timestampParseLayouts 100 =
      .ok ["2/1/06 15:04", "02/01/06 15:04"] ∧
    ∀ l ∈ ["2/1/06 15:04", "02/01/06 15:04"], isEuropeanLayout l = true ∧ isUSLayout l = false := by
  have h := c10_european_layouts_win ["03/04/24, 10:00 - A: hello"] 100 (by decide) (by decide)
    ⟨"2/1/06 15:04", by decide, by decide⟩
  have hfilter : (eliminateLayouts (sniffSampleLines ["03/04/24, 10:00 - A: hello"] 100)
      timestampParseLayouts).filter isEuropeanLayout = ["2/1/06 15:04", "02/01/06 15:04"] := by
    decide
  refine ⟨?_, by decide⟩
  have h1 := h.1
  rw [hfilter] at h1
  exact h1

/-! ### C1: the monthly activity series -/

/-- C1, amended: each sender's monthly series has one data point for every
calendar month observed in the input — months in which nobody wrote are
absent rather than zero-filled — in ascending order and without
duplicates; a point's value is the sender's message count in that month,
0 when that sender was silent there; and every sender has a series. -/
theorem c1_monthly_series_over_observed_months (sw : List String) (msgs : List ParsedMessage)
    (bm : Nat) (ho : List (Nat × Nat)) (stats : ChatStatistics) (hne : msgs ≠ [])
    (hok : calculateChatStatistics sw msgs bm ho = .ok stats) :
    (∀ u, u ∈ msgs.map (·.sender) → ∃ series ∈ stats.userMonthlyActivity, series.id = u) ∧
    ∀ series ∈ stats.userMonthlyActivity,
      (series.data.map (·.x)).Sorted strLeRel ∧
      (series.data.map (·.x)).Nodup ∧
      (∀ mo, mo ∈ series.data.map (·.x) ↔ ∃ m ∈ msgs, goFormatMonth m.timestamp = mo) ∧
      ∀ p ∈ series.data, p.y = monthUserCount msgs series.id p.x := by
  obtain ⟨-, -, -, hact, -, -, -, -, -⟩ := calcStats_ok_fields sw msgs bm ho stats hne hok
  have hA : (statsLoop ((bm : Int) * 60) sw {} msgs).allMonths =
      msgs.foldl (fun am msg => insertNew am (goFormatMonth msg.timestamp)) [] :=
    statsLoop_allMonths ..
  have hM : (statsLoop ((bm : Int) * 60) sw {} msgs).monthlyActivityByUser =
      msgs.foldl (fun m msg => bump2 m msg.sender (goFormatMonth msg.timestamp)) [] :=
    statsLoop_monthly ..
  have hU : (statsLoop ((bm : Int) * 60) sw {} msgs).userMessageCount =
      msgs.foldl (fun m msg => bump m msg.sender) [] := statsLoop_userMessageCount ..
  obtain ⟨m0, rest, rfl⟩ := List.exists_cons_of_ne_nil hne
  have hAmem : ∀ a, a ∈ (statsLoop ((bm : Int) * 60) sw {} (m0 :: rest)).allMonths ↔
      ∃ m ∈ m0 :: rest, goFormatMonth m.timestamp = a := by
    intro a
    rw [hA, monthsFold_mem]
    simp
  have hAne : (statsLoop ((bm : Int) * 60) sw {} (m0 :: rest)).allMonths ≠ [] :=
    List.ne_nil_of_mem ((hAmem _).mpr ⟨m0, List.mem_cons_self .., rfl⟩)
  have hUmem : ∀ u, u ∈ alKeys ((statsLoop ((bm : Int) * 60) sw {} (m0 :: rest)).userMessageCount)
      ↔ ∃ m ∈ m0 :: rest, m.sender = u := by
    intro u
    rw [hU, umcFold_keys_mem]
    simp [alKeys]
  have hUne : alKeys ((statsLoop ((bm : Int) * 60) sw {} (m0 :: rest)).userMessageCount) ≠ [] :=
    List.ne_nil_of_mem ((hUmem _).mpr ⟨m0, List.mem_cons_self .., rfl⟩)
  rw [getMonthlyActivity, if_neg (by push_neg; exact ⟨hAne, hUne⟩)] at hact
  constructor
  · intro u hu
    simp only [List.mem_map] at hu
    obtain ⟨m, hm, rfl⟩ := hu
    have humem : m.sender ∈ sortStrings
        (alKeys ((statsLoop ((bm : Int) * 60) sw {} (m0 :: rest)).userMessageCount)) :=
      (mem_sortStrings _ _).mpr ((hUmem _).mpr ⟨m, hm, rfl⟩)
    rw [hact]
    exact ⟨_, List.mem_map_of_mem _ humem, rfl⟩
  · intro series hser
    rw [hact] at hser
    simp only [List.mem_map] at hser
    obtain ⟨u, hu, rfl⟩ := hser
    have hxmap : ((sortStrings ((statsLoop ((bm : Int) * 60) sw {}
        (m0 :: rest)).allMonths)).map fun monthStr =>
          (⟨monthStr, lookup2 ((statsLoop ((bm : Int) * 60) sw {}
            (m0 :: rest)).monthlyActivityByUser) u monthStr⟩ : NivoPoint)).map (·.x) =
        sortStrings ((statsLoop ((bm : Int) * 60) sw {} (m0 :: rest)).allMonths) := by
      rw [List.map_map]
      exact List.map_id ..
    refine ⟨?_, ?_, ?_, ?_⟩
    · rw [hxmap]
      exact sortStrings_sorted _
    · rw [hxmap]
      refine nodup_sortStrings _ ?_
      rw [hA]
      exact monthsFold_nodup _ [] (by simp)
    · intro mo
      rw [hxmap, mem_sortStrings]
      exact hAmem mo
    · intro p hp
      simp only [List.mem_map] at hp
      obtain ⟨mo, hmo, rfl⟩ := hp
      show lookup2 _ u mo = _
      rw [hM]
      simpa [lookup2] using monthlyFold_lookup (m0 :: rest) [] u mo

/-- Messages in January and March 2024 only (no February message). -/
def janMarMsgs : List ParsedMessage :=
  [⟨mkInstant 2024 1 5 10 0, "5/1/24", "A", "hello there", "hello there"⟩,
   ⟨mkInstant 2024 3 5 11 0, "5/3/24", "B", "okay then sure", "okay then sure"⟩]

/-- C1, counterexample: on messages spanning January and March 2024 each
sender's series has exactly TWO points, `2024-01` and `2024-03` — there is
no `2024-02` entry at all, where the claim demands three entries per
sender with a zero-valued February. -/
theorem c1_counterexample_no_february_point :
    (calculateChatStatistics [] janMarMsgs 120 [(10, 1), (11, 1)]).toOption.map
      (·.userMonthlyActivity) =
      some [⟨"A", [⟨"2024-01", 1⟩, ⟨"2024-03", 0⟩]⟩,
            ⟨"B", [⟨"2024-01", 0⟩, ⟨"2024-03", 1⟩]⟩] := by
  decide

/-- Witness for `c1_monthly_series_over_observed_months` at `janMarMsgs`. -/
theorem c1_monthly_series_over_observed_months_witness :
    ∃ stats, calculateChatStatistics [] janMarMsgs 120 [(10, 1), (11, 1)] = .ok stats ∧
      ((∀ u, u ∈ janMarMsgs.map (·.sender) →
          ∃ series ∈ stats.userMonthlyActivity, series.id = u) ∧
       ∀ series ∈ stats.userMonthlyActivity,
         (series.data.map (·.x)).Sorted strLeRel ∧
         (series.data.map (·.x)).Nodup ∧
         (∀ mo, mo ∈ series.data.map (·.x) ↔
            ∃ m ∈ janMarMsgs, goFormatMonth m.timestamp = mo) ∧
         ∀ p ∈ series.data, p.y = monthUserCount janMarMsgs series.id p.x) := by
  have hsome : (calculateChatStatistics [] janMarMsgs 120 [(10, 1), (11, 1)]).toOption.isSome := by
    decide
  cases hcase : calculateChatStatistics [] janMarMsgs 120 [(10, 1), (11, 1)] with
  | error e =>
      rw [hcase] at hsome
      simp [Except.toOption] at hsome
  | ok stats =>
      exact ⟨stats, rfl, c1_monthly_series_over_observed_months [] janMarMsgs 120
        [(10, 1), (11, 1)] stats (by decide) hcase⟩

/-! ### C6: which per-sender maps cover every sender -/

/-- Every key of the pass's `userStartsConvo` map is a sender of some
message (the map is bumped only with `msg.Sender`). -/
theorem statsLoop_startsConvo_keys (c : Int) (sw : List String) (s : StatsState)
    (msgs : List ParsedMessage) (u : String)
    (hu : u ∈ alKeys (statsLoop c sw s msgs).userStartsConvo) :
    u ∈ alKeys s.userStartsConvo ∨ ∃ m ∈ msgs, m.sender = u := by
  induction msgs generalizing s with
  | nil => exact Or.inl hu
  | cons m rest ih =>
      rw [statsLoop] at hu
      rcases ih _ hu with h | h
      · simp only [statsStep] at h
        by_cases hc : stepIsNewConvo c s.isFirst s.lastTimestamp m = true ∧ m.sender ≠ ""
        · rw [if_pos hc] at h
          rcases (mem_alKeys_bump _ _ _).mp h with h3 | h3
          · exact Or.inl h3
          · exact Or.inr ⟨m, List.mem_cons_self .., h3.symm⟩
        · rw [if_neg hc] at h
          exact Or.inl h
      · obtain ⟨m2, hm2, he⟩ := h
        exact Or.inr ⟨m2, List.mem_cons_of_mem _ hm2, he⟩

/-- Every key of the pass's `userIgnoredCount` map is a sender of some
message. -/
theorem statsLoop_ignored_keys (c : Int) (sw : List String) (s : StatsState)
    (msgs : List ParsedMessage) (u : String)
    (hu : u ∈ alKeys (statsLoop c sw s msgs).userIgnoredCount) :
    u ∈ alKeys s.userIgnoredCount ∨ ∃ m ∈ msgs, m.sender = u := by
  induction msgs generalizing s with
  | nil => exact Or.inl hu
  | cons m rest ih =>
      rw [statsLoop] at hu
      rcases ih _ hu with h | h
      · cases hh : rest.head? with
        | none =>
            simp only [statsStep, hh] at h
            exact Or.inl h
        | some nxt =>
            simp only [statsStep, hh] at h
            by_cases hc : nxt.sender = m.sender
            · rw [if_pos hc] at h
              rcases (mem_alKeys_bump _ _ _).mp h with h3 | h3
              · exact Or.inl h3
              · exact Or.inr ⟨m, List.mem_cons_self .., h3.symm⟩
            · rw [if_neg hc] at h
              exact Or.inl h
      · obtain ⟨m2, hm2, he⟩ := h
        exact Or.inr ⟨m2, List.mem_cons_of_mem _ hm2, he⟩

/-- C6, amended: for every non-empty accepted input, the senders with at
least one message are exactly the keys of `user_message_count` (without
duplicates) and of `most_active_users_pct` (same key list), and exactly
the ids of `user_monthly_activity`, each appearing in exactly one series;
but `conversation_starters_pct` and `most_ignored_users_pct` only carry
keys drawn from the senders that registered at least one conversation
start, resp. one ignored message — a sender with no such signal is
omitted from those two maps rather than listed with value 0. -/
theorem c6_per_sender_map_keys (sw : List String) (msgs : List ParsedMessage)
    (bm : Nat) (ho : List (Nat × Nat)) (stats : ChatStatistics) (hne : msgs ≠ [])
    (hok : calculateChatStatistics sw msgs bm ho = .ok stats) :
    (∀ u, u ∈ alKeys stats.userMessageCount ↔ ∃ m ∈ msgs, m.sender = u) ∧
    (alKeys stats.userMessageCount).Nodup ∧
    stats.mostActiveUsersPct.map (·.1) = alKeys stats.userMessageCount ∧
    (stats.userMonthlyActivity.map (·.id)).Nodup ∧
    (∀ u, u ∈ stats.userMonthlyActivity.map (·.id) ↔ ∃ m ∈ msgs, m.sender = u) ∧
    (∀ u, u ∈ stats.conversationStartersPct.map (·.1) → ∃ m ∈ msgs, m.sender = u) ∧
    (∀ u, u ∈ stats.mostIgnoredUsersPct.map (·.1) → ∃ m ∈ msgs, m.sender = u) := by
  obtain ⟨-, humc, hmau, hact, -, -, -, hsta, hign⟩ :=
    calcStats_ok_fields sw msgs bm ho stats hne hok
  have hU : (statsLoop ((bm : Int) * 60) sw {} msgs).userMessageCount =
      msgs.foldl (fun m msg => bump m msg.sender) [] := statsLoop_userMessageCount ..
  have hA : (statsLoop ((bm : Int) * 60) sw {} msgs).allMonths =
      msgs.foldl (fun am msg => insertNew am (goFormatMonth msg.timestamp)) [] :=
    statsLoop_allMonths ..
  obtain ⟨m0, rest, rfl⟩ := List.exists_cons_of_ne_nil hne
  have hUmem : ∀ u, u ∈ alKeys ((statsLoop ((bm : Int) * 60) sw {} (m0 :: rest)).userMessageCount)
      ↔ ∃ m ∈ m0 :: rest, m.sender = u := by
    intro u
    rw [hU, umcFold_keys_mem]
    simp [alKeys]
  have hUne : alKeys ((statsLoop ((bm : Int) * 60) sw {} (m0 :: rest)).userMessageCount) ≠ [] :=
    List.ne_nil_of_mem ((hUmem _).mpr ⟨m0, List.mem_cons_self .., rfl⟩)
  have hUnd : (alKeys ((statsLoop ((bm : Int) * 60) sw {} (m0 :: rest)).userMessageCount)).Nodup := by
    rw [hU]
    exact umcFold_nodup _ [] (by simp [alKeys])
  have hAne : (statsLoop ((bm : Int) * 60) sw {} (m0 :: rest)).allMonths ≠ [] := by
    rw [hA]
    exact List.ne_nil_of_mem ((monthsFold_mem ..).mpr (Or.inr ⟨m0, List.mem_cons_self .., rfl⟩))
  rw [getMonthlyActivity, if_neg (by push_neg; exact ⟨hAne, hUne⟩)] at hact
  have hids : stats.userMonthlyActivity.map (·.id) =
      sortStrings (alKeys ((statsLoop ((bm : Int) * 60) sw {} (m0 :: rest)).userMessageCount)) := by
    rw [hact, List.map_map]
    exact List.map_id ..
  refine ⟨?_, ?_, ?_, ?_, ?_, ?_, ?_⟩
  · intro u
    rw [humc]
    exact hUmem u
  · rw [humc]
    exact hUnd
  · rw [hmau, List.map_map]
    rfl
  · rw [hids]
    exact nodup_sortStrings _ hUnd
  · intro u
    rw [hids, mem_sortStrings]
    exact hUmem u
  · intro u hu
    rcases statsLoop_startsConvo_keys _ _ _ _ _ (hsta u hu) with h3 | h3
    · exact absurd h3 (List.not_mem_nil u)
    · exact h3
  · intro u hu
    rcases statsLoop_ignored_keys _ _ _ _ _ (hign u hu) with h3 | h3
    · exact absurd h3 (List.not_mem_nil u)
    · exact h3

/-- Two senders one minute apart: only the opening message starts a
conversation, and nobody is ignored. -/
def twoSenderMsgs : List ParsedMessage :=
  [⟨mkInstant 2024 1 5 10 0, "5/1/24", "A", "hello there", "hello there"⟩,
   ⟨mkInstant 2024 1 5 10 1, "5/1/24", "B", "okay then sure", "okay then sure"⟩]

/-- C6, counterexample: sender `B` has a message (it is a key of
`user_message_count`) yet `conversation_starters_pct` carries only `A` and
`most_ignored_users_pct` is empty — `B` is omitted, not present with 0. -/
theorem c6_counterexample_zero_signal_sender_omitted :
    (calculateChatStatistics [] twoSenderMsgs 120 [(10, 2)]).toOption.map
      (fun s => (alKeys s.userMessageCount, s.conversationStartersPct.map (·.1),
        s.mostIgnoredUsersPct)) =
      some (["A", "B"], ["A"], []) := by
  decide

/-- Witness for `c6_per_sender_map_keys` at `twoSenderMsgs`. -/
theorem c6_per_sender_map_keys_witness :
    ∃ stats, calculateChatStatistics [] twoSenderMsgs 120 [(10, 2)] = .ok stats ∧
      ((∀ u, u ∈ alKeys stats.userMessageCount ↔ ∃ m ∈ twoSenderMsgs, m.sender = u) ∧
       (alKeys stats.userMessageCount).Nodup ∧
       stats.mostActiveUsersPct.map (·.1) = alKeys stats.userMessageCount ∧
       (stats.userMonthlyActivity.map (·.id)).Nodup ∧
       (∀ u, u ∈ stats.userMonthlyActivity.map (·.id) ↔ ∃ m ∈ twoSenderMsgs, m.sender = u) ∧
       (∀ u, u ∈ stats.conversationStartersPct.map (·.1) → ∃ m ∈ twoSenderMsgs, m.sender = u) ∧
       (∀ u, u ∈ stats.mostIgnoredUsersPct.map (·.1) → ∃ m ∈ twoSenderMsgs, m.sender = u)) := by
  have hsome : (calculateChatStatistics [] twoSenderMsgs 120 [(10, 2)]).toOption.isSome := by
    decide
  cases hcase : calculateChatStatistics [] twoSenderMsgs 120 [(10, 2)] with
  | error e =>
      rw [hcase] at hsome
      simp [Except.toOption] at hsome
  | ok stats =>
      exact ⟨stats, rfl, c6_per_sender_map_keys [] twoSenderMsgs 120 [(10, 2)] stats
        (by decide) hcase⟩

/-! ### C3: which consecutive pairs the interaction matrix counts -/

/-- The list of consecutive record pairs of a message list. -/
def consecPairs : List ParsedMessage → List (ParsedMessage × ParsedMessage)
  | [] => []
  | [_] => []
  | x :: y :: rest => (x, y) :: consecPairs (y :: rest)

/-- The number of consecutive pairs `(prev, cur)` with senders `a → b`
that the single pass actually counts: different non-empty senders AND a
gap of at most `c` seconds (a gap crossing the conversation break starts
a new conversation and is NOT counted). -/
def qualifyingPairCount (c : Int) (msgs : List ParsedMessage) (a b : String) : Nat :=
  (consecPairs msgs).countP fun p =>
    decide (p.1.sender = a ∧ p.2.sender = b ∧ ¬ a = "" ∧ ¬ b = a ∧
      p.2.timestamp - p.1.timestamp ≤ c)

theorem qualifyingPairCount_cons (c : Int) (prev cur : ParsedMessage)
    (rest : List ParsedMessage) (a b : String) :
    qualifyingPairCount c (prev :: cur :: rest) a b =
      (if prev.sender = a ∧ cur.sender = b ∧ ¬ a = "" ∧ ¬ b = a ∧
          cur.timestamp - prev.timestamp ≤ c then 1 else 0) +
        qualifyingPairCount c (cur :: rest) a b := by
  simp only [qualifyingPairCount, consecPairs, List.countP_cons, decide_eq_true_eq]
  omega

/-- Counting lemma for the matrix loop once past the first record: the
cell `(a, b)` grows by exactly the qualifying pairs of `prev :: msgs`. -/
theorem matrixLoop_lookup (c : Int) (a b : String) (msgs : List ParsedMessage)
    (prev : ParsedMessage) (m : List (String × List (String × Nat))) :
    lookup2 (matrixLoop c false prev.sender prev.timestamp m msgs) a b =
      lookup2 m a b + qualifyingPairCount c (prev :: msgs) a b := by
  induction msgs generalizing prev m with
  | nil => simp [matrixLoop, qualifyingPairCount, consecPairs]
  | cons cur rest ih =>
      rw [matrixLoop, ih cur, qualifyingPairCount_cons]
      have hstep : lookup2 (stepInteraction c false prev.sender prev.timestamp m cur) a b =
          lookup2 m a b + (if prev.sender = a ∧ cur.sender = b ∧ ¬ a = "" ∧ ¬ b = a ∧
            cur.timestamp - prev.timestamp ≤ c then 1 else 0) := by
        rw [stepInteraction, if_neg (by simp)]
        by_cases h1 : c < cur.timestamp - prev.timestamp
        · rw [if_pos h1, if_neg (by intro h; exact absurd h.2.2.2.2 (by omega)), Nat.add_zero]
        · rw [if_neg h1]
          by_cases h2 : prev.sender ≠ "" ∧ cur.sender ≠ prev.sender
          · rw [if_pos h2, lookup2_bump2]
            congr 1
            by_cases ha : prev.sender = a
            · by_cases hb : cur.sender = b
              · subst ha
                subst hb
                rw [if_pos ⟨rfl, rfl⟩, if_pos ⟨rfl, rfl, h2.1, h2.2, le_of_not_lt h1⟩]
              · simp [hb]
            · simp [ha]
          · rw [if_neg h2, if_neg ?_, Nat.add_zero]
            intro h
            obtain ⟨ha, hb, hane, hba, -⟩ := h
            exact h2 ⟨ha ▸ hane, fun he => hba (hb ▸ ha ▸ he)⟩
      rw [hstep]
      omega

/-- The whole pass, from the initial state: the interaction matrix cell
`(a, b)` equals the number of qualifying consecutive pairs. -/
theorem statsLoop_matrix_count (c : Int) (sw : List String) (msgs : List ParsedMessage)
    (a b : String) :
    lookup2 (statsLoop c sw {} msgs).interactionMatrix a b =
      qualifyingPairCount c msgs a b := by
  rw [statsLoop_matrix]
  cases msgs with
  | nil => simp [matrixLoop, lookup2, qualifyingPairCount, consecPairs]
  | cons m0 rest =>
      show lookup2 (matrixLoop c true "" 0 [] (m0 :: rest)) a b = _
      rw [matrixLoop]
      have h0 : stepInteraction c true "" 0 [] m0 = [] := rfl
      rw [h0, matrixLoop_lookup]
      simp [lookup2]

/-- C3, amended: the single pass increments the interaction matrix cell
(previous sender → current sender) for a consecutive pair of records
exactly when the senders are distinct and non-empty AND the gap between
the two records is at most the conversation-break duration; a pair whose
gap crosses the threshold starts a new conversation and leaves the matrix
unchanged.  The emitted matrix is the formatting of that cell table. -/
theorem c3_matrix_counts_only_within_break (sw : List String) (msgs : List ParsedMessage)
    (bm : Nat) (ho : List (Nat × Nat)) (stats : ChatStatistics) (hne : msgs ≠ [])
    (hok : calculateChatStatistics sw msgs bm ho = .ok stats) :
    stats.userInteractionMatrix =
      formatInteractionMatrix (statsLoop ((bm : Int) * 60) sw {} msgs).interactionMatrix
        (alKeys (statsLoop ((bm : Int) * 60) sw {} msgs).userMessageCount) ∧
    ∀ a b, lookup2 (statsLoop ((bm : Int) * 60) sw {} msgs).interactionMatrix a b =
      qualifyingPairCount ((bm : Int) * 60) msgs a b := by
  obtain ⟨-, -, -, -, hmat, -, -, -, -⟩ := calcStats_ok_fields sw msgs bm ho stats hne hok
  exact ⟨hmat, fun a b => statsLoop_matrix_count ..⟩

/-- Two records by different senders 200 minutes apart — farther than the
120-minute conversation break. -/
def farApartMsgs : List ParsedMessage :=
  [⟨mkInstant 2024 1 5 10 0, "5/1/24", "A", "hello there", "hello there"⟩,
   ⟨mkInstant 2024 1 5 13 20, "5/1/24", "B", "okay then sure", "okay then sure"⟩]

/-- C3, counterexample: the consecutive pair `A → B` has distinct senders,
yet with a 200-minute gap against a 120-minute break every cell of the
emitted matrix is 0 — the pair did NOT increment cell `(A, B)`. -/
theorem c3_counterexample_gap_crossing_pair_not_counted :
    (calculateChatStatistics [] farApartMsgs 120 [(10, 1), (13, 1)]).toOption.map
      (·.userInteractionMatrix) =
      some (some [[MatrixCell.corner, MatrixCell.name "A", MatrixCell.name "B"],
                  [MatrixCell.name "A", MatrixCell.cnt 0, MatrixCell.cnt 0],
                  [MatrixCell.name "B", MatrixCell.cnt 0, MatrixCell.cnt 0]]) := by
  decide

/-- Witness for `c3_matrix_counts_only_within_break` at `farApartMsgs`. -/
theorem c3_matrix_counts_only_within_break_witness :
    ∃ stats, calculateChatStatistics [] farApartMsgs 120 [(10, 1), (13, 1)] = .ok stats ∧
      (stats.userInteractionMatrix =
        formatInteractionMatrix
          (statsLoop ((120 : Int) * 60) [] {} farApartMsgs).interactionMatrix
          (alKeys (statsLoop ((120 : Int) * 60) [] {} farApartMsgs).userMessageCount) ∧
       ∀ a b, lookup2 (statsLoop ((120 : Int) * 60) [] {} farApartMsgs).interactionMatrix a b =
         qualifyingPairCount ((120 : Int) * 60) farApartMsgs a b) := by
  have hsome : (calculateChatStatistics [] farApartMsgs 120 [(10, 1), (13, 1)]).toOption.isSome := by
    decide
  cases hcase : calculateChatStatistics [] farApartMsgs 120 [(10, 1), (13, 1)] with
  | error e =>
      rw [hcase] at hsome
      simp [Except.toOption] at hsome
  | ok stats =>
      exact ⟨stats, rfl, c3_matrix_counts_only_within_break [] farApartMsgs 120 [(10, 1), (13, 1)]
        stats (by decide) hcase⟩

/-! ### C4: the first-text champion against days_active -/

/-- The number of date-string changes along a message list, starting from
a given previous date string (`""` before the first record). -/
def dateChanges (lastDateStr : String) : List ParsedMessage → Nat
  | [] => 0
  | m :: rest =>
      (if goFormatDate m.timestamp ≠ lastDateStr then 1 else 0) +
        dateChanges (goFormatDate m.timestamp) rest

/-- The total of the `userFirstTexts` counters is the number of
date-string changes seen by the pass. -/
theorem ftLoop_sum (msgs : List ParsedMessage) :
    ∀ (ft : List (String × Nat)) (ld : String),
      ((ftLoop ft ld msgs).1.map (·.2)).sum = (ft.map (·.2)).sum + dateChanges ld msgs := by
  induction msgs with
  | nil => intro ft ld; simp [ftLoop, dateChanges]
  | cons m rest ih =>
      intro ft ld
      rw [ftLoop]
      by_cases h : goFormatDate m.timestamp ≠ ld
      · have h1 : (stepFirstTexts ft ld m).1 = bump ft m.sender := by
          rw [stepFirstTexts, if_pos h]
        have h2 : (stepFirstTexts ft ld m).2 = goFormatDate m.timestamp := by
          rw [stepFirstTexts, if_pos h]
        rw [h1, h2, ih, sumValues_bump, dateChanges, if_pos h]
        omega
      · push_neg at h
        have h1 : (stepFirstTexts ft ld m).1 = ft := by
          rw [stepFirstTexts, if_neg (not_not_intro h)]
        have h2 : (stepFirstTexts ft ld m).2 = ld := by
          rw [stepFirstTexts, if_neg (not_not_intro h)]
        rw [h1, h2, ih, dateChanges, h]
        simp

/-- The champion scan returns the initial count or one of the map's
values. -/
theorem ftcFold_count_cases (m : List (String × Nat)) (acc : Int × ChampionInfo) :
    (m.foldl (fun (acc : Int × ChampionInfo) p =>
        if acc.1 < (p.2 : Int) then ((p.2 : Int), ⟨p.1, p.2⟩) else acc) acc).2.count =
      acc.2.count ∨
    ∃ p ∈ m, (m.foldl (fun (acc : Int × ChampionInfo) p =>
        if acc.1 < (p.2 : Int) then ((p.2 : Int), ⟨p.1, p.2⟩) else acc) acc).2.count = p.2 := by
  induction m generalizing acc with
  | nil => exact Or.inl rfl
  | cons p rest ih =>
      rw [List.foldl_cons]
      by_cases hc : acc.1 < (p.2 : Int)
      · rw [if_pos hc]
        rcases ih ((p.2 : Int), ⟨p.1, p.2⟩) with h | h
        · exact Or.inr ⟨p, List.mem_cons_self .., h⟩
        · obtain ⟨q, hq, he⟩ := h
          exact Or.inr ⟨q, List.mem_cons_of_mem _ hq, he⟩
      · rw [if_neg hc]
        rcases ih acc with h | h
        · exact Or.inl h
        · obtain ⟨q, hq, he⟩ := h
          exact Or.inr ⟨q, List.mem_cons_of_mem _ hq, he⟩

/-- The champion's count never exceeds the total of the counters. -/
theorem firstTextChampionOf_count_le_sum (m : List (String × Nat)) :
    (firstTextChampionOf m).count ≤ (m.map (·.2)).sum := by
  rcases ftcFold_count_cases m (-1, ⟨"", 0⟩) with h | h
  · rw [firstTextChampionOf, h]
    exact Nat.zero_le _
  · obtain ⟨p, hp, he⟩ := h
    rw [firstTextChampionOf, he]
    exact List.single_le_sum (by simp) _ (List.mem_map_of_mem (·.2) hp)

/-- Two instants of the same civil day format to the same date string. -/
theorem goFormatDate_congr (a b : Int) (h : a.ediv 86400 = b.ediv 86400) :
    goFormatDate a = goFormatDate b := by
  rw [goFormatDate, goFormatDate, h]

/-- In a chronologically ordered list the first timestamp bounds the last. -/
theorem chain_head_le_getLast (m0 : ParsedMessage) (rest : List ParsedMessage)
    (hchain : List.Chain' byTimestamp (m0 :: rest)) :
    m0.timestamp ≤ ((m0 :: rest).getLast (by simp)).timestamp := by
  induction rest generalizing m0 with
  | nil => exact le_refl _
  | cons q rest ih =>
      obtain ⟨hle, hch⟩ := List.chain'_cons.mp hchain
      calc m0.timestamp ≤ q.timestamp := hle
        _ ≤ _ := ih q hch

/-- `Int.ediv`, as the division notation. -/
theorem ediv_as_div (a b : Int) : a.ediv b = a / b := rfl

/-- Each date change after the first record strictly advances the civil
day, so the changes are bounded by the day difference. -/
theorem dateChanges_after (rest : List ParsedMessage) :
    ∀ prev : ParsedMessage, List.Chain' byTimestamp (prev :: rest) →
      (dateChanges (goFormatDate prev.timestamp) rest : Int) ≤
        ((prev :: rest).getLast (by simp)).timestamp.ediv 86400 -
          prev.timestamp.ediv 86400 := by
  induction rest with
  | nil => intro prev hchain; simp [dateChanges]
  | cons q rest ih =>
      intro prev hchain
      obtain ⟨hle, hch⟩ := List.chain'_cons.mp hchain
      have hq := ih q hch
      have hdayle : prev.timestamp.ediv 86400 ≤ q.timestamp.ediv 86400 := by
        have h0 : prev.timestamp ≤ q.timestamp := hle
        simp only [ediv_as_div]
        omega
      rw [List.getLast_cons (by simp)]
      rw [dateChanges]
      by_cases h : goFormatDate q.timestamp ≠ goFormatDate prev.timestamp
      · have hday : prev.timestamp.ediv 86400 ≠ q.timestamp.ediv 86400 := by
          intro he
          exact h (goFormatDate_congr q.timestamp prev.timestamp he.symm)
        rw [if_pos h]
        push_cast
        simp only [ediv_as_div] at *
        omega
      · rw [if_neg h]
        push_neg at h
        rw [h] at hq ⊢
        push_cast
        simp only [ediv_as_div] at *
        omega

/-- C4, amended: for a chronologically ordered accepted input in which
neither the first nor the last record parses to Go's zero time and whose
first-to-last span fits the `int64` nanosecond `Duration`, the first-text
champion's count can exceed `days_active` by at most one:
`first_text_champion.count ≤ days_active + 1`; the counterexample below
attains the slack of one, refuting the claimed bound
`count ≤ days_active` (which also fails outright when an end record
carries the zero time, leaving `days_active = 0`, or when the span
saturates the `Duration`). -/
theorem c4_first_text_champion_le_days_active_succ (sw : List String)
    (msgs : List ParsedMessage) (bm : Nat) (ho : List (Nat × Nat)) (stats : ChatStatistics)
    (hne : msgs ≠ []) (hchain : List.Chain' byTimestamp msgs)
    (hz1 : (msgs.head hne).timestamp ≠ goZeroTimeSec)
    (hz2 : (msgs.getLast hne).timestamp ≠ goZeroTimeSec)
    (hspan : ((msgs.getLast hne).timestamp - (msgs.head hne).timestamp) * 1000000000 ≤
      2 ^ 63 - 1)
    (hok : calculateChatStatistics sw msgs bm ho = .ok stats) :
    (stats.firstTextChampion.count : Int) ≤ stats.daysActive + 1 := by
  obtain ⟨-, -, -, -, -, hftc, hda, -, -⟩ := calcStats_ok_fields sw msgs bm ho stats hne hok
  have hft : (statsLoop ((bm : Int) * 60) sw {} msgs).userFirstTexts =
      (ftLoop [] "" msgs).1 := statsLoop_firstTexts ..
  have hcount : stats.firstTextChampion.count ≤ dateChanges "" msgs := by
    rw [hftc, hft]
    have h1 := firstTextChampionOf_count_le_sum (ftLoop [] "" msgs).1
    rw [ftLoop_sum msgs [] ""] at h1
    simpa using h1
  obtain ⟨m0, rest, rfl⟩ := List.exists_cons_of_ne_nil hne
  have hdc : (dateChanges (goFormatDate m0.timestamp) rest : Int) ≤
      ((m0 :: rest).getLast (by simp)).timestamp.ediv 86400 -
        m0.timestamp.ediv 86400 := dateChanges_after rest m0 hchain
  have hle : m0.timestamp ≤ ((m0 :: rest).getLast (by simp)).timestamp :=
    chain_head_le_getLast m0 rest hchain
  have hdc0 : dateChanges "" (m0 :: rest) ≤ 1 + dateChanges (goFormatDate m0.timestamp) rest := by
    rw [dateChanges]
    split
    · omega
    · omega
  simp only [List.head_cons] at hda hz1 hspan
  rw [hda, if_pos ⟨hz1, hz2⟩]
  have hsub : goSubNs ((m0 :: rest).getLast hne).timestamp m0.timestamp =
      (((m0 :: rest).getLast hne).timestamp - m0.timestamp) * 1000000000 := by
    rw [goSubNs, if_neg (by omega), if_neg (by omega)]
  rw [hsub]
  have htdiv : ((((m0 :: rest).getLast hne).timestamp - m0.timestamp) *
      1000000000).tdiv 86400000000000 =
      ((((m0 :: rest).getLast hne).timestamp - m0.timestamp) *
        1000000000).ediv 86400000000000 :=
    Int.tdiv_eq_ediv (by omega) (by omega)
  rw [htdiv]
  simp only [ediv_as_div] at *
  omega

/-- Three messages by `A`: late on Jan 1, midday Jan 2, and just past
midnight on Jan 3 2024 — three civil days inside a 26-hour span. -/
def threeDayMsgs : List ParsedMessage :=
  [⟨mkInstant 2024 1 1 23 0, "1/1/24", "A", "hello there", "hello there"⟩,
   ⟨mkInstant 2024 1 2 12 0, "2/1/24", "A", "okay then sure", "okay then sure"⟩,
   ⟨mkInstant 2024 1 3 1 0, "3/1/24", "A", "good night all", "good night all"⟩]

/-- C4, counterexample: the span is 26 hours, so
`days_active = int(26/24) + 1 = 2`, yet `A` opens three distinct civil
days and `first_text_champion.count = 3 > 2`, against the claimed bound
`count ≤ days_active`. -/
theorem c4_counterexample_count_exceeds_days_active :
    (calculateChatStatistics [] threeDayMsgs 120 [(23, 1), (12, 1), (1, 1)]).toOption.map
      (fun s => (s.firstTextChampion, s.daysActive)) = some (⟨"A", 3⟩, 2) := by
  decide

/-- Witness for `c4_first_text_champion_le_days_active_succ` at
`threeDayMsgs` (where the bound holds with equality: 3 ≤ 2 + 1). -/
theorem c4_first_text_champion_le_days_active_succ_witness :
    ∃ stats, calculateChatStatistics [] threeDayMsgs 120 [(23, 1), (12, 1), (1, 1)] = .ok stats ∧
      (stats.firstTextChampion.count : Int) ≤ stats.daysActive + 1 := by
  have hsome : (calculateChatStatistics [] threeDayMsgs 120
      [(23, 1), (12, 1), (1, 1)]).toOption.isSome := by
    decide
  cases hcase : calculateChatStatistics [] threeDayMsgs 120 [(23, 1), (12, 1), (1, 1)] with
  | error e =>
      rw [hcase] at hsome
      simp [Except.toOption] at hsome
  | ok stats =>
      exact ⟨stats, rfl, c4_first_text_champion_le_days_active_succ [] threeDayMsgs 120
        [(23, 1), (12, 1), (1, 1)] stats (by decide)
        (List.chain'_cons.mpr ⟨by decide, List.chain'_cons.mpr
          ⟨by decide, List.chain'_singleton _⟩⟩)
        (by decide) (by decide) (by decide) hcase⟩
